import Mathlib

/-!
Verification of the ExploreOS kernel sources against its specification.

The development shallow-embeds the Rust sources:
* `src/shared/range_set/src/lib.rs` (RangeSet),
* `src/kernel/src/memory_manager.rs` (PhysicalMemory::translate_phys, the
  kernel heap free list),
* `src/kernel/libraries/ext2_parser/src/lib.rs` (the ext2 parser),
* `src/kernel/src/process.rs` and `src/kernel/src/syscall.rs` (file
  descriptors and the Read/Open syscalls).

Machine integers (`u32`, and the 32-bit `usize` of the IA-32 target) are
modelled as `Nat` together with explicit `% 2^32` where the source relies on
wrapping, explicit saturation where the source calls `saturating_add/sub`,
and `Option` where the source uses checked arithmetic or can panic.  The
repository is built with `cargo build --release` (see `src/src/main.rs`), so
plain `+`/`-`/`*` on machine integers wrap.
-/

namespace ExploreOS

/-- Modulus of the 32-bit machine integers (`u32`, and `usize` on IA-32). -/
def U32M : Nat := 4294967296

/-- Model of `u32::saturating_add(x, 1)`. -/
def satAdd1 (x : Nat) : Nat := min (x + 1) (U32M - 1)

/-- Model of `u32::saturating_sub(x, 1)`.  Truncated `Nat` subtraction has
exactly the saturating semantics. -/
def satSub1 (x : Nat) : Nat := x - 1

/-- Model of wrapping `u32` subtraction `a - b` (for `a b < U32M`). -/
def wsub (a b : Nat) : Nat := (a + U32M - b) % U32M

/-- Model of `u32::count_ones` (`fn count_ones`): number of set bits. -/
def countOnes (n : Nat) : Nat :=
  if n = 0 then 0 else n % 2 + countOnes (n / 2)
decreasing_by exact Nat.div_lt_self (Nat.pos_of_ne_zero (by assumption)) (by norm_num)

/-- Model of `InclusiveRange` from `src/shared/range_set/src/lib.rs`: all
addresses `a` with `start <= a <= stop`.  The source names the second field
`end`, which is a keyword in Lean. -/
structure InclusiveRange where
  start : Nat
  stop : Nat
deriving DecidableEq, Repr

/-- Model of `should_merge_ranges`: the ranges overlap or are contiguous.
The source first swaps the arguments so that `a` starts no later than `b`,
then checks `b.start <= a.end.saturating_add(1)`. -/
def shouldMergeRanges (a b : InclusiveRange) : Bool :=
  if a.start > b.start then
    decide (a.start ≤ satAdd1 b.stop)
  else
    decide (b.start ≤ satAdd1 a.stop)

/-- Model of `do_ranges_overlap`. -/
def doRangesOverlap (a b : InclusiveRange) : Bool :=
  (decide (a.start ≤ b.start) && decide (b.start ≤ a.stop)) ||
  (decide (b.start ≤ a.start) && decide (a.start ≤ b.stop))

/-- Model of `does_range_contain`: `a` contains `b`. -/
def doesRangeContain (a b : InclusiveRange) : Bool :=
  decide (a.start ≤ b.start) && decide (b.stop ≤ a.stop)

/-- Model of `round_up_to_pow_of_2` from `src/shared/range_set/src/lib.rs`.
`!mask` on `u32` is `mask ^^^ 0xFFFFFFFF`; the addition `(val & !mask) +
power` is a release-mode `u32` addition and therefore wraps. -/
def roundUpToPowOf2 (val power : Nat) : Nat :=
  let mask := power - 1
  if val &&& mask = 0 then val
  else ((val &&& ((U32M - 1) ^^^ mask)) + power) % U32M

/-- Model of `RangeSet`: the in-use prefix `ranges[..num_ranges]` of the
fixed 32-entry array is modelled as a list (`MAX_NUM_RANGES = 32`). -/
structure RangeSet where
  ranges : List InclusiveRange
deriving DecidableEq, Repr

/-- Model of `RangeSet::new`. -/
def RangeSet.new : RangeSet := ⟨[]⟩

/-- One pass of the `'try_merge` loop of `RangeSet::insert`: find the first
range that `should_merge_ranges` with `r` (the loop scans indices from 0)
and return it together with the list with it deleted (`RangeSet::delete`
shifts the suffix down, i.e. removes the element). -/
def findMergeCandidate (r : InclusiveRange) :
    List InclusiveRange → Option (InclusiveRange × List InclusiveRange)
  | [] => none
  | c :: rest =>
    if shouldMergeRanges r c then some (c, rest)
    else match findMergeCandidate r rest with
      | none => none
      | some (c', rest') => some (c', c :: rest')

theorem findMergeCandidate_length {r : InclusiveRange} :
    ∀ {l : List InclusiveRange} {c l'},
      findMergeCandidate r l = some (c, l') → l'.length + 1 = l.length := by
  intro l
  induction l with
  | nil => intro c l' h; simp [findMergeCandidate] at h
  | cons a rest ih =>
    intro c l' h
    by_cases hm : shouldMergeRanges r a
    · simp [findMergeCandidate, hm] at h
      simp [h.2.symm]
    · simp [findMergeCandidate, hm] at h
      cases hfind : findMergeCandidate r rest with
      | none => rw [hfind] at h; simp at h
      | some p =>
        rw [hfind] at h
        simp at h
        have := @ih p.1 p.2 (by rw [hfind])
        simp [← h.2, List.length_cons, ← this, h.1]

/-- The `'try_merge` loop of `RangeSet::insert`: repeatedly merge `r` with an
existing mergeable range (widening `r` by `min`/`max` and deleting the
existing range) until no range merges. -/
def insertLoop (r : InclusiveRange) (l : List InclusiveRange) :
    InclusiveRange × List InclusiveRange :=
  match h : findMergeCandidate r l with
  | none => (r, l)
  | some (c, l') =>
    insertLoop ⟨min r.start c.start, max r.stop c.stop⟩ l'
termination_by l.length
decreasing_by
  have := findMergeCandidate_length h
  omega

/-- Model of `RangeSet::insert`.  The source `assert!`s that
`range.start <= range.end` and (after merging) that the capacity of 32 is
not exceeded; a failed assertion panics the kernel and is modelled as
`none`.  The new range is written at index `num_ranges`, i.e. appended. -/
def RangeSet.insert (s : RangeSet) (r : InclusiveRange) : Option RangeSet :=
  if r.start ≤ r.stop then
    if (insertLoop r s.ranges).2.length < 32 then
      some ⟨(insertLoop r s.ranges).2 ++ [(insertLoop r s.ranges).1]⟩
    else none
  else none

/-- The `'try_subtract` loop of `RangeSet::remove`, scanning index `i`.
Finding a fully contained range deletes it and restarts the scan at index 0
(`continue 'try_subtract`); trimming an edge continues at `i + 1`; a strict
interior overlap splits the range (append the right part, shrink the
existing one to the left part) and stops (`break 'try_subtract`). -/
def removeScan (r : InclusiveRange) (l : List InclusiveRange) (i : Nat) :
    Option (List InclusiveRange) :=
  if h : i < l.length then
    if doRangesOverlap r (l[i]) then
      if doesRangeContain r (l[i]) then
        removeScan r (l.eraseIdx i) 0
      else if r.start ≤ (l[i]).start then
        removeScan r (l.set i ⟨satAdd1 r.stop, (l[i]).stop⟩) (i + 1)
      else if r.stop ≥ (l[i]).stop then
        removeScan r (l.set i ⟨(l[i]).start, satSub1 r.start⟩) (i + 1)
      else
        if l.length < 32 then
          some ((l.set i ⟨(l[i]).start, satSub1 r.start⟩) ++
            [⟨satAdd1 r.stop, (l[i]).stop⟩])
        else none
    else
      removeScan r l (i + 1)
  else some l
termination_by (l.length, l.length - i)
decreasing_by
  · simp [Prod.lex_iff]
    left
    have := List.length_eraseIdx_add_one h
    omega
  · simp [Prod.lex_iff, List.length_set]
    omega
  · simp [Prod.lex_iff, List.length_set]
    omega
  · simp [Prod.lex_iff]
    omega

/-- Model of `RangeSet::remove`. -/
def RangeSet.remove (s : RangeSet) (r : InclusiveRange) : Option RangeSet :=
  if r.start ≤ r.stop then
    (removeScan r s.ranges 0).map (fun l => ⟨l⟩)
  else none

/-- Model of `RangeSet::subtract`: remove every range of `other` in turn. -/
def RangeSet.subtract (s : RangeSet) (other : RangeSet) : Option RangeSet :=
  other.ranges.foldlM (fun acc r => acc.remove r) s

/-- One step of the candidate search of `RangeSet::allocate`: try to fit the
aligned allocation in range `c`, keeping the best `(padding_needed,
allocation_addr)` pair; a later candidate replaces the best only when its
padding is strictly smaller.  All arithmetic is release-mode `u32`
arithmetic (wrapping subtraction). -/
def allocStep (size align : Nat) (best : Option (Nat × Nat))
    (c : InclusiveRange) : Option (Nat × Nat) :=
  let nextAlignedStart := roundUpToPowOf2 c.start align
  if size ≤ satAdd1 (wsub c.stop nextAlignedStart) then
    let paddingNeeded := wsub nextAlignedStart c.start
    match best with
    | none => some (paddingNeeded, nextAlignedStart)
    | some b =>
      if paddingNeeded < b.1 then some (paddingNeeded, nextAlignedStart) else some b
  else best

/-- The candidate search loop of `RangeSet::allocate` over all ranges. -/
def allocBest (size align : Nat) (l : List InclusiveRange) :
    Option (Nat × Nat) :=
  l.foldl (allocStep size align) none

/-- Model of `RangeSet::allocate`.  Returns the allocated address and the
updated set.  `allocation_addr + (size - 1)` is a release-mode `u32`
addition and wraps. -/
def RangeSet.allocate (s : RangeSet) (size align : Nat) :
    Option (Nat × RangeSet) :=
  if size = 0 then none
  else if countOnes align ≠ 1 then none
  else
    match allocBest size align s.ranges with
    | some (_, allocationAddr) =>
      (s.remove ⟨allocationAddr, (allocationAddr + (size - 1)) % U32M⟩).map
        (fun s' => (allocationAddr, s'))
    | none => none

/-! ### The RangeSet separation invariant (claim C4) -/

/-- Separation of two ranges as stated by the specification:
`a.end + 1 < b.start` or `b.end + 1 < a.start`. -/
def SepRange (a b : InclusiveRange) : Prop :=
  a.stop + 1 < b.start ∨ b.stop + 1 < a.start

/-- Well-formedness of a single stored range: `start <= end`, and both
bounds fit in a `u32` (`start <= end < 2^32`). -/
def WFRange (r : InclusiveRange) : Prop :=
  r.start ≤ r.stop ∧ r.stop < U32M

/-- Invariant of the list of stored ranges: each range is well-formed and
all pairs are separated. -/
def RangeListInv (l : List InclusiveRange) : Prop :=
  (∀ r ∈ l, WFRange r) ∧ l.Pairwise SepRange

theorem SepRange.symm {a b : InclusiveRange} (h : SepRange a b) : SepRange b a :=
  h.elim .inr .inl

/-- Shrinking the left-hand range preserves separation. -/
theorem SepRange.shrink_left {c b a : InclusiveRange} (h : SepRange c b)
    (h1 : c.start ≤ a.start) (h2 : a.stop ≤ c.stop) : SepRange a b := by
  unfold SepRange at *
  omega

/-- Two well-formed ranges that `should_merge_ranges` rejects are separated. -/
theorem sep_of_not_shouldMerge {a b : InclusiveRange} (ha : WFRange a)
    (hb : WFRange b) (h : shouldMergeRanges a b = false) : SepRange a b := by
  unfold shouldMergeRanges satAdd1 at h
  unfold WFRange at ha hb
  unfold U32M at h ha hb
  unfold SepRange
  split at h <;> simp at h <;> omega

theorem findMergeCandidate_none {r : InclusiveRange} :
    ∀ {l : List InclusiveRange}, findMergeCandidate r l = none →
      ∀ c ∈ l, shouldMergeRanges r c = false := by
  intro l
  induction l with
  | nil => intro _ c hc; simp at hc
  | cons a rest ih =>
    intro h c hc
    by_cases hm : shouldMergeRanges r a
    · simp [findMergeCandidate, hm] at h
    · rcases List.mem_cons.mp hc with hca | hcr
      · simpa [hca] using hm
      · apply ih _ c hcr
        simp only [findMergeCandidate, hm, if_neg, Bool.false_eq_true, if_false] at h
        cases hfind : findMergeCandidate r rest with
        | none => rfl
        | some p => rw [hfind] at h; simp at h

theorem findMergeCandidate_some {r : InclusiveRange} :
    ∀ {l c l'}, findMergeCandidate r l = some (c, l') →
      c ∈ l ∧ List.Sublist l' l := by
  intro l
  induction l with
  | nil => intro c l' h; simp [findMergeCandidate] at h
  | cons a rest ih =>
    intro c l' h
    by_cases hm : shouldMergeRanges r a
    · simp [findMergeCandidate, hm] at h
      exact ⟨by simp [h.1], h.2 ▸ List.sublist_cons_self a rest⟩
    · simp only [findMergeCandidate, hm, Bool.false_eq_true, if_false] at h
      cases hfind : findMergeCandidate r rest with
      | none => rw [hfind] at h; simp at h
      | some p =>
        rw [hfind] at h
        simp at h
        obtain ⟨hmem, hsub⟩ := @ih p.1 p.2 (by rw [hfind])
        refine ⟨by simp [← h.1, hmem], ?_⟩
        rw [← h.2]
        exact (hsub.cons₂ a)

/-- Properties of the `'try_merge` loop: the widened range is well-formed,
the surviving ranges keep the invariant, and no surviving range merges with
the widened range. -/
theorem insertLoop_spec {r : InclusiveRange} {l : List InclusiveRange} :
    WFRange r → RangeListInv l →
    WFRange (insertLoop r l).1 ∧ RangeListInv (insertLoop r l).2 ∧
      ∀ c ∈ (insertLoop r l).2, shouldMergeRanges (insertLoop r l).1 c = false := by
  induction r, l using insertLoop.induct with
  | case1 r l hfind =>
    intro hr hl
    rw [insertLoop, hfind]
    exact ⟨hr, hl, findMergeCandidate_none hfind⟩
  | case2 r l c l' hfind ih =>
    intro hr hl
    rw [insertLoop, hfind]
    obtain ⟨hmem, hsub⟩ := findMergeCandidate_some hfind
    have hc : WFRange c := hl.1 c hmem
    have hmerged : WFRange ⟨min r.start c.start, max r.stop c.stop⟩ := by
      unfold WFRange at *
      simp
      omega
    have hl' : RangeListInv l' :=
      ⟨fun x hx => hl.1 x (hsub.subset hx), hl.2.sublist hsub⟩
    exact ih hmerged hl'

/-- `RangeSet::insert` preserves the separation invariant. -/
theorem insert_inv {s s' : RangeSet} {r : InclusiveRange} (hr : r.stop < U32M)
    (hinv : RangeListInv s.ranges) (h : s.insert r = some s') :
    RangeListInv s'.ranges := by
  unfold RangeSet.insert at h
  split at h
  case isFalse => simp at h
  case isTrue hse =>
    split at h
    case isFalse => simp at h
    case isTrue hcap =>
      obtain ⟨hwf, hlinv, hnomerge⟩ := insertLoop_spec ⟨hse, hr⟩ hinv
      have hs' : s'.ranges = (insertLoop r s.ranges).2 ++ [(insertLoop r s.ranges).1] := by
        cases h
        rfl
      rw [hs']
      constructor
      · intro x hx
        rcases List.mem_append.mp hx with hx | hx
        · exact hlinv.1 x hx
        · simp at hx
          rw [hx]
          exact hwf
      · rw [List.pairwise_append]
        refine ⟨hlinv.2, List.pairwise_singleton _ _, ?_⟩
        intro a ha b hb
        simp at hb
        rw [hb]
        exact (sep_of_not_shouldMerge hwf (hlinv.1 a ha) (hnomerge a ha)).symm

/-- Replacing the `i`-th range by a well-formed sub-range preserves the
invariant. -/
theorem set_shrink_inv {l : List InclusiveRange} {i : Nat} (h : i < l.length)
    {a : InclusiveRange} (hinv : RangeListInv l) (ha : WFRange a)
    (h1 : (l[i]).start ≤ a.start) (h2 : a.stop ≤ (l[i]).stop) :
    RangeListInv (l.set i a) := by
  obtain ⟨hwfs, hpw⟩ := hinv
  constructor
  · intro x hx
    rcases List.mem_or_eq_of_mem_set hx with hx | hx
    · exact hwfs x hx
    · rw [hx]; exact ha
  · rw [List.pairwise_iff_getElem] at hpw ⊢
    intro p q hp hq hpq
    rw [List.length_set] at hp hq
    have hbase := hpw p q hp hq hpq
    rw [List.getElem_set, List.getElem_set]
    have hgi : l[i] = l[i] := rfl
    by_cases hip : i = p
    · subst hip
      simp only [if_pos rfl, if_neg (by omega : ¬ i = q)]
      exact SepRange.shrink_left hbase (hgi ▸ h1) (hgi ▸ h2)
    · by_cases hiq : i = q
      · subst hiq
        simp only [if_neg hip, if_pos rfl]
        exact ((hbase.symm).shrink_left (hgi ▸ h1) (hgi ▸ h2)).symm
      · simp only [if_neg hip, if_neg hiq]
        exact hbase

/-- The `'try_subtract` loop of `RangeSet::remove` preserves the
invariant. -/
theorem removeScan_inv {r : InclusiveRange} (hr : r.start ≤ r.stop) :
    ∀ {l : List InclusiveRange} {i : Nat} {l' : List InclusiveRange},
      RangeListInv l → removeScan r l i = some l' → RangeListInv l' := by
  intro l i
  induction l, i using removeScan.induct r with
  | case1 l i h hov hcont ih =>
    intro l' hinv hrun
    rw [removeScan, dif_pos h, if_pos hov, if_pos hcont] at hrun
    refine ih ⟨fun x hx => hinv.1 x ((List.eraseIdx_sublist l i).subset hx),
      hinv.2.sublist (List.eraseIdx_sublist l i)⟩ hrun
  | case2 l i h hov hcont hs ih =>
    intro l' hinv hrun
    rw [removeScan, dif_pos h, if_pos hov, if_neg hcont, if_pos hs] at hrun
    have hc := hinv.1 _ (List.getElem_mem h)
    unfold doRangesOverlap at hov
    simp only [Bool.not_eq_true] at hcont
    unfold doesRangeContain at hcont
    simp at hov hcont
    unfold WFRange at hc
    unfold U32M at hc
    refine ih (set_shrink_inv h hinv ?_ ?_ ?_) hrun
    · unfold WFRange satAdd1 U32M at *
      simp only
      omega
    · unfold satAdd1 U32M at *
      simp only
      omega
    · simp
  | case3 l i h hov hcont hs hs2 ih =>
    intro l' hinv hrun
    rw [removeScan, dif_pos h, if_pos hov, if_neg hcont, if_neg hs, if_pos hs2] at hrun
    have hc := hinv.1 _ (List.getElem_mem h)
    unfold doRangesOverlap at hov
    simp at hov hs
    unfold WFRange at hc
    unfold U32M at hc
    refine ih (set_shrink_inv h hinv ?_ ?_ ?_) hrun
    · unfold WFRange satSub1 U32M at *
      simp only
      omega
    · simp
    · unfold satSub1
      simp only
      omega
  | case4 l i h hov hcont hs hs2 hcap =>
    intro l' hinv hrun
    rw [removeScan, dif_pos h, if_pos hov, if_neg hcont, if_neg hs, if_neg hs2,
      if_pos hcap] at hrun
    have hl' : l' = (l.set i ⟨(l[i]).start, satSub1 r.start⟩) ++
        [⟨satAdd1 r.stop, (l[i]).stop⟩] := by
      cases hrun
      rfl
    have hc := hinv.1 _ (List.getElem_mem h)
    unfold doRangesOverlap at hov
    simp only [Bool.not_eq_true] at hcont
    unfold doesRangeContain at hcont
    simp at hov hcont hs hs2
    unfold WFRange at hc
    unfold U32M at hc
    -- Facts collected: the existing range strictly contains `r`.
    have hleft : WFRange ⟨(l[i]).start, satSub1 r.start⟩ := by
      unfold WFRange satSub1 U32M at *
      simp only
      omega
    have hright : WFRange ⟨satAdd1 r.stop, (l[i]).stop⟩ := by
      unfold WFRange satAdd1 U32M at *
      simp only
      omega
    have hsetinv : RangeListInv (l.set i ⟨(l[i]).start, satSub1 r.start⟩) :=
      set_shrink_inv h hinv hleft (by simp) (by unfold satSub1; simp only; omega)
    rw [hl']
    constructor
    · intro x hx
      rcases List.mem_append.mp hx with hx | hx
      · exact hsetinv.1 x hx
      · simp at hx
        rw [hx]
        exact hright
    · rw [List.pairwise_append]
      refine ⟨hsetinv.2, List.pairwise_singleton _ _, ?_⟩
      intro a ha b hb
      simp at hb
      subst hb
      -- Either `a` is the shrunk left part (at index i) or an untouched range.
      obtain ⟨j, hj, hja⟩ := List.mem_iff_getElem.mp ha
      rw [List.length_set] at hj
      rw [List.getElem_set] at hja
      by_cases hij : i = j
      · rw [if_pos hij] at hja
        rw [← hja]
        unfold SepRange satSub1 satAdd1 U32M at *
        simp only
        omega
      · rw [if_neg hij] at hja
        have hsep : SepRange l[j] (l[i]) := by
          have hpw := hinv.2
          rw [List.pairwise_iff_getElem] at hpw
          rcases Nat.lt_or_ge j i with hlt | hge
          · exact hpw j i hj h hlt
          · exact (hpw i j h hj (by omega)).symm
        rw [← hja]
        refine (hsep.symm.shrink_left ?_ ?_).symm
        · unfold satAdd1 U32M
          simp only
          omega
        · simp
  | case5 l i h hov hcont hs hs2 hcap =>
    intro l' hinv hrun
    rw [removeScan, dif_pos h, if_pos hov, if_neg hcont, if_neg hs, if_neg hs2,
      if_neg hcap] at hrun
    simp at hrun
  | case6 l i h hov ih =>
    intro l' hinv hrun
    rw [removeScan, dif_pos h, if_neg hov] at hrun
    exact ih hinv hrun
  | case7 l i h =>
    intro l' hinv hrun
    rw [removeScan, dif_neg h] at hrun
    cases hrun
    exact hinv

/-- `RangeSet::remove` preserves the separation invariant. -/
theorem remove_inv {s s' : RangeSet} {r : InclusiveRange}
    (hinv : RangeListInv s.ranges) (h : s.remove r = some s') :
    RangeListInv s'.ranges := by
  unfold RangeSet.remove at h
  split at h
  case isFalse => simp at h
  case isTrue hse =>
    cases hrun : removeScan r s.ranges 0 with
    | none => rw [hrun] at h; simp at h
    | some l' =>
      rw [hrun] at h
      simp at h
      rw [← h]
      exact removeScan_inv hse hinv hrun

/-- States reachable from the empty `RangeSet` by successful `insert` and
`remove` operations (a panicking operation terminates the kernel and is
modelled as `none`).  The argument ranges are `u32` pairs, hence the
`< U32M` side conditions. -/
inductive Reachable : RangeSet → Prop where
  | empty : Reachable RangeSet.new
  | insert {s : RangeSet} {r : InclusiveRange} {s' : RangeSet}
      (hr : r.stop < U32M) (hs : Reachable s) (h : s.insert r = some s') :
      Reachable s'
  | remove {s : RangeSet} {r : InclusiveRange} {s' : RangeSet}
      (hr : r.stop < U32M) (hs : Reachable s) (h : s.remove r = some s') :
      Reachable s'

theorem reachable_inv {s : RangeSet} (h : Reachable s) : RangeListInv s.ranges := by
  induction h with
  | empty => exact ⟨by simp [RangeSet.new], by simp [RangeSet.new]⟩
  | insert hr _ h ih => exact insert_inv hr ih h
  | remove _ _ h ih => exact remove_inv ih h

/-- C4: after any sequence of `insert` and `remove` operations starting from
the empty set, every pair of distinct stored ranges `(a, b)` satisfies
`a.end + 1 < b.start` or `b.end + 1 < a.start`: the ranges are pairwise
non-overlapping and non-contiguous. -/
theorem rangeSet_pairwise_separated {s : RangeSet} (h : Reachable s) :
    s.ranges.Pairwise (fun a b => a.stop + 1 < b.start ∨ b.stop + 1 < a.start) :=
  (reachable_inv h).2

/-- Witness for C4 at a concrete reachable state:
insert `[5,10]` then `[100,200]` into the empty set and check separation. -/
theorem rangeSet_pairwise_separated_witness :
    (⟨[⟨5, 10⟩, ⟨100, 200⟩]⟩ : RangeSet).ranges.Pairwise
      (fun a b => a.stop + 1 < b.start ∨ b.stop + 1 < a.start) := by
  have h1 : RangeSet.new.insert ⟨5, 10⟩ = some ⟨[⟨5, 10⟩]⟩ := by
    simp [RangeSet.new, RangeSet.insert, insertLoop, findMergeCandidate]
  have h2 : (⟨[⟨5, 10⟩]⟩ : RangeSet).insert ⟨100, 200⟩ =
      some ⟨[⟨5, 10⟩, ⟨100, 200⟩]⟩ := by
    simp [RangeSet.insert, insertLoop, findMergeCandidate, shouldMergeRanges,
      satAdd1, U32M]
  exact rangeSet_pairwise_separated
    (Reachable.insert (r := ⟨100, 200⟩) (by norm_num [U32M])
      (Reachable.insert (r := ⟨5, 10⟩) (by norm_num [U32M]) Reachable.empty h1) h2)

/-! ### RangeSet allocation (claim C5) -/

theorem countOnes_eq_zero : ∀ {n : Nat}, countOnes n = 0 → n = 0 := by
  intro n
  induction n using Nat.strong_induction_on with
  | _ n ih =>
    intro h
    rw [countOnes] at h
    split at h
    · assumption
    · rename_i hn0
      have h2 : countOnes (n / 2) = 0 := by omega
      have h3 : n / 2 = 0 := ih (n / 2) (Nat.div_lt_self (Nat.pos_of_ne_zero hn0) (by norm_num)) h2
      omega

/-- A `u32` with exactly one set bit is a power of two. -/
theorem countOnes_eq_one : ∀ {n : Nat}, countOnes n = 1 → ∃ k, n = 2 ^ k := by
  intro n
  induction n using Nat.strong_induction_on with
  | _ n ih =>
    intro h
    rw [countOnes] at h
    split at h
    · simp at h
    · rename_i hn0
      by_cases hpar : n % 2 = 1
      · have h2 : countOnes (n / 2) = 0 := by omega
        have h3 : n / 2 = 0 := countOnes_eq_zero h2
        exact ⟨0, by omega⟩
      · have h2 : countOnes (n / 2) = 1 := by omega
        obtain ⟨k, hk⟩ :=
          ih (n / 2) (Nat.div_lt_self (Nat.pos_of_ne_zero hn0) (by norm_num)) h2
        refine ⟨k + 1, ?_⟩
        have : n = 2 * (n / 2) := by omega
        rw [this, hk, pow_succ]
        ring

theorem countOnes_two_pow : ∀ k : Nat, countOnes (2 ^ k) = 1 := by
  intro k
  induction k with
  | zero => rw [countOnes]; norm_num; rw [countOnes]; norm_num
  | succ k ih =>
    rw [countOnes]
    rw [if_neg (Nat.pos_iff_ne_zero.mp (Nat.pos_pow_of_pos _ (by norm_num)))]
    have h2 : (2 : Nat) ^ (k + 1) % 2 = 0 := by
      rw [pow_succ]
      exact Nat.mul_mod_left _ 2
    have h3 : (2 : Nat) ^ (k + 1) / 2 = 2 ^ k := by
      rw [pow_succ]
      exact Nat.mul_div_cancel _ (by norm_num)
    rw [h2, h3, ih]

theorem U32M_eq_pow : U32M = 2 ^ 32 := by norm_num [U32M]

/-- The low `k` bits of `(U32M - 1) ^^^ (2^k - 1)` (the `!mask` of the
source) are all zero. -/
theorem notMask_and_mask {k : Nat} (hk : k ≤ 32) :
    ((U32M - 1) ^^^ (2 ^ k - 1)) &&& (2 ^ k - 1) = 0 := by
  rw [Nat.and_xor_distrib_right]
  have h1 : (U32M - 1) &&& (2 ^ k - 1) = (U32M - 1) % 2 ^ k :=
    Nat.and_pow_two_sub_one_eq_mod _ k
  have h2 : (U32M - 1) % 2 ^ k = 2 ^ k - 1 := by
    obtain ⟨m, hm⟩ : (2 ^ k : Nat) ∣ U32M := by
      rw [U32M_eq_pow]; exact pow_dvd_pow 2 hk
    have hm1 : 1 ≤ m := by
      rcases Nat.eq_zero_or_pos m with h0 | h1
      · rw [h0, Nat.mul_zero] at hm; simp [U32M] at hm
      · exact h1
    have hsplit : 2 ^ k * (m - 1) + (2 ^ k - 1) = U32M - 1 := by
      rw [hm]
      cases m with
      | zero => omega
      | succ m' =>
        simp only [Nat.add_sub_cancel, Nat.mul_succ]
        have hp : 1 ≤ 2 ^ k := Nat.one_le_two_pow
        omega
    rw [← hsplit, Nat.mul_add_mod, Nat.mod_eq_of_lt (by omega)]
  rw [h1, h2, Nat.and_self, Nat.xor_self]

/-- The result of `round_up_to_pow_of_2(val, 2^k)` is a multiple of `2^k`
(for the `u32` power arguments the function is called with). -/
theorem roundUpToPowOf2_mod {val k : Nat} (hk : k ≤ 32) :
    roundUpToPowOf2 val (2 ^ k) % 2 ^ k = 0 := by
  unfold roundUpToPowOf2
  simp only
  split
  case isTrue h =>
    rw [← Nat.and_pow_two_sub_one_eq_mod]
    exact h
  case isFalse h =>
    have hdvdM : (2 ^ k : Nat) ∣ U32M := by
      rw [U32M_eq_pow]; exact pow_dvd_pow 2 hk
    have hand : (2 ^ k : Nat) ∣ (val &&& ((U32M - 1) ^^^ (2 ^ k - 1))) := by
      apply Nat.dvd_of_mod_eq_zero
      rw [← Nat.and_pow_two_sub_one_eq_mod, Nat.and_assoc, notMask_and_mask hk]
      exact Nat.and_zero val
    apply Nat.mod_eq_zero_of_dvd
    rw [Nat.dvd_mod_iff hdvdM]
    exact Nat.dvd_add hand dvd_rfl

/-- Wrapping subtraction agrees with truncated subtraction when nothing
wraps. -/
theorem wsub_of_le {a b : Nat} (hb : b ≤ a) (ha : a < U32M) : wsub a b = a - b := by
  unfold wsub U32M at *
  omega

theorem allocStep_some {size align : Nat} {acc : Option (Nat × Nat)}
    {c : InclusiveRange} {pad addr : Nat}
    (h : allocStep size align acc c = some (pad, addr)) :
    (addr = roundUpToPowOf2 c.start align ∧
      size ≤ satAdd1 (wsub c.stop (roundUpToPowOf2 c.start align))) ∨
    acc = some (pad, addr) := by
  cases acc with
  | none =>
    unfold allocStep at h
    simp only at h
    split at h
    case isTrue hfit =>
      simp at h
      exact Or.inl ⟨h.2.symm, hfit⟩
    case isFalse =>
      simp at h
  | some b =>
    unfold allocStep at h
    simp only at h
    split at h
    case isTrue hfit =>
      split at h
      · simp at h
        exact Or.inl ⟨h.2.symm, hfit⟩
      · exact Or.inr h
    case isFalse =>
      exact Or.inr h

theorem allocBest_fold_some {size align : Nat} :
    ∀ (l : List InclusiveRange) (acc : Option (Nat × Nat)) {pad addr : Nat},
      l.foldl (allocStep size align) acc = some (pad, addr) →
      (∃ c ∈ l, addr = roundUpToPowOf2 c.start align ∧
        size ≤ satAdd1 (wsub c.stop (roundUpToPowOf2 c.start align))) ∨
      acc = some (pad, addr) := by
  intro l
  induction l with
  | nil =>
    intro acc pad addr h
    exact Or.inr h
  | cons c rest ih =>
    intro acc pad addr h
    rw [List.foldl_cons] at h
    rcases ih (allocStep size align acc c) h with hrest | hstep
    · obtain ⟨c', hc', hp⟩ := hrest
      exact Or.inl ⟨c', List.mem_cons_of_mem c hc', hp⟩
    · rcases allocStep_some hstep with hc | hacc
      · exact Or.inl ⟨c, List.mem_cons_self c rest, hc⟩
      · exact Or.inr hacc

/-- C5 (amended): if `allocate(size, align)` returns `p`, then
`p % align == 0`; moreover, whenever every stored range reaches its aligned
start without 32-bit wraparound (`c.start <= round_up(c.start, align) <=
c.stop` for every stored range `c`), the allocated block `[p, p+size-1]`
lies inside some pre-existing range, and exactly that block is removed from
the set.  (Without the wraparound proviso the containment fails: see the
counterexample.) -/
theorem allocate_aligned_and_in_range {s s' : RangeSet} {size align p : Nat}
    (hsize : size < U32M) (halign : align < U32M)
    (h : s.allocate size align = some (p, s')) :
    p % align = 0 ∧
    ((∀ c ∈ s.ranges, c.start ≤ c.stop ∧ c.stop < U32M) →
     (∀ c ∈ s.ranges, c.start ≤ roundUpToPowOf2 c.start align ∧
        roundUpToPowOf2 c.start align ≤ c.stop) →
     (∃ c ∈ s.ranges, c.start ≤ p ∧ p + (size - 1) ≤ c.stop) ∧
       s.remove ⟨p, p + (size - 1)⟩ = some s') := by
  unfold RangeSet.allocate at h
  split at h
  case isTrue => simp at h
  case isFalse hsz =>
    split at h
    case isTrue => simp at h
    case isFalse hco =>
      have hco1 : countOnes align = 1 := by omega
      obtain ⟨k, hk⟩ := countOnes_eq_one hco1
      have hk32 : k ≤ 32 := by
        by_contra hgt
        have : (2 : Nat) ^ 33 ≤ 2 ^ k := Nat.pow_le_pow_right (by norm_num) (by omega)
        have : align ≥ 2 ^ 33 := by omega
        rw [U32M_eq_pow] at halign
        have h33 : (2 : Nat) ^ 32 < 2 ^ 33 := by norm_num
        omega
      cases hbest : allocBest size align s.ranges with
      | none => rw [hbest] at h; simp at h
      | some b =>
        obtain ⟨pad, addr⟩ := b
        rw [hbest] at h
        dsimp only at h
        have hbest' : s.ranges.foldl (allocStep size align) none = some (pad, addr) := hbest
        rcases allocBest_fold_some s.ranges none hbest' with hfound | habs
        · obtain ⟨c, hcmem, haddr, hfitc⟩ := hfound
          cases hrem : s.remove ⟨addr, (addr + (size - 1)) % U32M⟩ with
          | none => rw [hrem] at h; simp at h
          | some s'' =>
            rw [hrem] at h
            simp at h
            obtain ⟨hp, hs'⟩ := h
            subst hp
            constructor
            · -- Alignment holds for every returning `allocate`: the guard
              -- forces `align` to be a `u32` power of two.
              rw [haddr, hk]
              exact roundUpToPowOf2_mod hk32
            · intro hwf hfit
              obtain ⟨hcse, hcM⟩ := hwf c hcmem
              obtain ⟨hlo, hhi⟩ := hfit c hcmem
              rw [← haddr] at hlo hhi
              -- The fit check is genuine: no wraparound in `c.stop - addr`.
              rw [← haddr, wsub_of_le hhi (by omega)] at hfitc
              have hin : addr + (size - 1) ≤ c.stop := by
                unfold satAdd1 U32M at hfitc
                unfold U32M at hsize hcM
                omega
              have hmod : (addr + (size - 1)) % U32M = addr + (size - 1) :=
                Nat.mod_eq_of_lt (by unfold U32M at *; omega)
              rw [hmod] at hrem
              exact ⟨⟨c, hcmem, hlo, hin⟩, by rw [hrem, hs']⟩
        · simp at habs

/-- Witness for the amended C5 at a concrete input: allocating 4096 bytes
aligned to 4096 from the set containing exactly `[0, 8191]` (a state that
also satisfies the no-wraparound proviso, so both parts apply). -/
theorem allocate_aligned_and_in_range_witness :
    0 % 4096 = 0 ∧
    (∃ c ∈ (⟨[⟨0, 8191⟩]⟩ : RangeSet).ranges, c.start ≤ 0 ∧ 0 + (4096 - 1) ≤ c.stop) ∧
    (⟨[⟨0, 8191⟩]⟩ : RangeSet).remove ⟨0, 0 + (4096 - 1)⟩ =
      some ⟨[⟨4096, 8191⟩]⟩ := by
  have H := allocate_aligned_and_in_range
    (by norm_num [U32M]) (by norm_num [U32M])
    (show RangeSet.allocate ⟨[⟨0, 8191⟩]⟩ 4096 4096 = some (0, ⟨[⟨4096, 8191⟩]⟩) by
      unfold RangeSet.allocate
      norm_num [show countOnes 4096 = 1 by
          rw [show (4096 : Nat) = 2 ^ 12 by norm_num]; exact countOnes_two_pow 12,
        allocBest, allocStep, roundUpToPowOf2, wsub, satAdd1, U32M]
      unfold RangeSet.remove
      norm_num
      rw [removeScan]
      norm_num [doRangesOverlap, doesRangeContain, satAdd1, satSub1, U32M]
      rw [removeScan]
      norm_num)
  refine ⟨H.1, H.2 ?_ ?_⟩
  · intro c hc
    simp at hc
    simp [hc, U32M]
  · intro c hc
    simp at hc
    rw [hc]
    norm_num [roundUpToPowOf2]

/-- Counterexample to C5 as stated: with the set containing exactly `[1, 10]`,
`allocate(1, 4096)` succeeds and returns `p = 4096`, but `[4096, 4096]` is
not contained in any pre-existing range (the release-mode `u32` subtraction
`end - next_aligned_start` wraps around when the aligned start exceeds the
range end, so the fit check passes spuriously). -/
theorem allocate_subset_counterexample :
    RangeSet.allocate ⟨[⟨1, 10⟩]⟩ 1 4096 = some (4096, ⟨[⟨1, 10⟩]⟩) ∧
    ∀ c ∈ (⟨[⟨1, 10⟩]⟩ : RangeSet).ranges, ¬(c.start ≤ 4096 ∧ 4096 + (1 - 1) ≤ c.stop) := by
  constructor
  · unfold RangeSet.allocate
    norm_num [show countOnes 4096 = 1 by
        rw [show (4096 : Nat) = 2 ^ 12 by norm_num]; exact countOnes_two_pow 12,
      allocBest, allocStep, roundUpToPowOf2, wsub, satAdd1, U32M,
      show (1 : Nat) &&& 4095 = 1 by decide,
      show (1 : Nat) &&& (4294967295 ^^^ 4095) = 0 by decide]
    unfold RangeSet.remove
    norm_num
    rw [removeScan]
    norm_num [doRangesOverlap]
    rw [removeScan]
    norm_num
  · intro c hc
    simp at hc
    simp [hc]

/-! ### The transient physical window of `PhysicalMemory::translate_phys`
(claim C1), from `src/kernel/src/memory_manager.rs` -/

/-- Virtual address at which the page table of the last page is permanently
mapped (`boot_args::LAST_PAGE_TABLE_VADDR = 0xFFFFE000`). -/
def LAST_PAGE_TABLE_VADDR : Nat := 4294959104

/-- Base-page address `x & !0xFFF`: `x` with the low 12 bits cleared. -/
def pageBase (x : Nat) : Nat := x - x % 4096

/-- Model of the `PhysicalMemory` struct of `src/kernel/src/memory_manager.rs`. -/
structure PhysicalMemory where
  memory_ranges : RangeSet
  last_page_table_paddr : Nat
  current_phys_mapping : Option Nat
deriving DecidableEq, Repr

/-- Model of `PhysicalMemory::translate_phys`.  The `page_dir` argument is
`Option<&mut PageDirectory>`; only its presence matters here (the write into
the already-mapped last page table by `map_raw_directly` mutates the page
directory, which this state does not carry, and records the new window in
`current_phys_mapping`).  Returns the virtual pointer value and the updated
state.  `phys_addr` is a `u32` and `size` a 32-bit `usize`; the
`try_into`/`checked_add` failures and the early returns of the source are
`none`.  `self.last_page_table_paddr.0 + 4095` is a release-mode `u32`
addition and wraps. -/
def translate_phys (st : PhysicalMemory) (page_dir : Bool)
    (phys_addr size : Nat) : Option (Nat × PhysicalMemory) :=
  if size = 0 then none
  else if U32M ≤ phys_addr + (size - 1) then none
  else if st.last_page_table_paddr ≤ phys_addr ∧
      phys_addr ≤ (st.last_page_table_paddr + 4095) % U32M then
    if U32M ≤ (phys_addr - st.last_page_table_paddr) + (size - 1) then none
    else if 4095 < (phys_addr - st.last_page_table_paddr) + (size - 1) then none
    else some (LAST_PAGE_TABLE_VADDR + (phys_addr - st.last_page_table_paddr), st)
  else
    if st.current_phys_mapping ≠ some (pageBase phys_addr) then
      if page_dir then
        if pageBase phys_addr + 4095 < phys_addr + (size - 1) then none
        else
          some (4294963200 + (phys_addr - pageBase phys_addr),
            { st with current_phys_mapping := some (pageBase phys_addr) })
      else none
    else
      some (4294963200 + (phys_addr - pageBase phys_addr), st)

/-- C1 (amended): whenever `translate_phys` returns a pointer for a frame
that is NOT already the current transient mapping (including the permanent
last-page-table fast path), `size <= 4096` and the requested byte range
`[phys, phys+size-1]` lies within a single 4 KiB page.  When the requested
frame is already the current transient mapping, the pointer is returned
without any size or page-boundary check (see the counterexample).  The
hypotheses state the `u32` range of the fields and that the last page
table frame is page-aligned. -/
theorem translate_phys_single_page {st st' : PhysicalMemory} {pd : Bool}
    {phys size p : Nat} (hphys : phys < U32M)
    (halign : st.last_page_table_paddr % 4096 = 0)
    (hppt : st.last_page_table_paddr < U32M)
    (hcur : st.current_phys_mapping ≠ some (pageBase phys))
    (h : translate_phys st pd phys size = some (p, st')) :
    size ≤ 4096 ∧ phys / 4096 = (phys + (size - 1)) / 4096 := by
  unfold translate_phys at h
  split at h
  · simp at h
  · split at h
    · simp at h
    · rename_i hsz hov
      split at h
      · -- Fast path: the frame backs the last page table.
        rename_i hfast
        split at h
        · simp at h
        · split at h
          · simp at h
          · rename_i h1 h2
            have hlastM : st.last_page_table_paddr + 4095 < U32M := by
              unfold U32M at *
              omega
            rw [Nat.mod_eq_of_lt hlastM] at hfast
            unfold U32M at *
            omega
      · -- Slow path: a new transient window is installed.
        split at h
        · -- page_dir present
          split at h
          · simp at h
          · rename_i h3
            simp only [Option.some.injEq, Prod.mk.injEq] at h
            unfold pageBase U32M at *
            omega
        · -- page_dir absent
          simp at h

/-- Witness for the amended C1: installing a fresh window for frame `0x1000`
with `size = 4096` from a state with no current mapping. -/
theorem translate_phys_single_page_witness :
    4096 ≤ 4096 ∧ 4096 / 4096 = (4096 + (4096 - 1)) / 4096 :=
  @translate_phys_single_page ⟨RangeSet.new, 0, none⟩ ⟨RangeSet.new, 0, some 4096⟩
    true 4096 4096 4294963200
    (by decide) (by decide) (by decide) (by decide) (by decide)

/-- Counterexample to C1 as stated: when the requested frame is already the
current transient mapping, `translate_phys` returns a pointer with no size
check at all.  Here the window `[0x1000, 0x2FFF]` is 8192 bytes long and
spans two pages, yet a pointer is returned. -/
theorem translate_phys_straddle_counterexample :
    translate_phys ⟨RangeSet.new, 20480, some 4096⟩ true 4096 8192 =
      some (4294963200, ⟨RangeSet.new, 20480, some 4096⟩) ∧
    ¬(8192 ≤ 4096) := by
  decide

/-! ### The kernel heap free list (claim C6), from
`GlobalAllocator::dealloc_internal` in `src/kernel/src/memory_manager.rs` -/

/-- Model of the `FreePagesEntry` header stored at the start of each free
run of kernel-heap pages. -/
structure FreePagesEntry where
  page_count : Nat
  next : Option Nat
deriving DecidableEq, Repr

/-- Kernel-heap state: the header memory (a `FreePagesEntry` view of every
page-aligned address) and the head pointer `FREE_PAGES_LIST`. -/
structure HeapState where
  mem : Nat → FreePagesEntry
  head : Option Nat

/-- Write a `FreePagesEntry` header at address `a` (`core::ptr::write`). -/
def updateMem (mem : Nat → FreePagesEntry) (a : Nat) (v : FreePagesEntry) :
    Nat → FreePagesEntry :=
  fun x => if x = a then v else mem x

/-- The merge scan of `dealloc_internal`: walk the free list from `entry`,
coalescing the freed block with any neighbouring entry.  `newEntry` was
initialised before the scan with `next` pointing at the OLD list head.
Removing a merged entry updates `lastEntry`'s next pointer, or the list
head when the merged entry is the first one.  The loop advances through
the `next` read at the top of the iteration; `fuel` bounds the walk (the
source loop has no bound; `none` means the fuel ran out before the source
loop finished).  Address arithmetic is 32-bit `usize` arithmetic. -/
def deallocScan (ptr alignedSize : Nat) :
    Nat → (Nat → FreePagesEntry) → Option Nat → FreePagesEntry → Nat →
    Option Nat → Nat →
    Option ((Nat → FreePagesEntry) × Option Nat × FreePagesEntry × Nat)
  | 0, _, _, _, _, _, _ => none
  | fuel + 1, mem, head, newEntry, newEntryPtr, lastEntry, entry =>
    let free_pages := mem entry
    let step : (Nat → FreePagesEntry) × Option Nat × FreePagesEntry × Nat :=
      if (ptr + alignedSize) % U32M = entry then
        let ne := FreePagesEntry.mk (newEntry.page_count + free_pages.page_count) newEntry.next
        match lastEntry with
        | some le =>
          (updateMem mem le ⟨(mem le).page_count, free_pages.next⟩, head, ne, newEntryPtr)
        | none => (mem, free_pages.next, ne, newEntryPtr)
      else if ptr = (entry + free_pages.page_count * 4096) % U32M then
        let ne := FreePagesEntry.mk (newEntry.page_count + free_pages.page_count) newEntry.next
        match lastEntry with
        | some le =>
          (updateMem mem le ⟨(mem le).page_count, free_pages.next⟩, head, ne, entry)
        | none => (mem, free_pages.next, ne, entry)
      else (mem, head, newEntry, newEntryPtr)
    match free_pages.next with
    | some nxt =>
      deallocScan ptr alignedSize fuel step.1 step.2.1 step.2.2.1 step.2.2.2 (some entry) nxt
    | none => some step

/-- Model of `GlobalAllocator::dealloc_internal`.  A zero-size dealloc
panics (`none`); the size is rounded up to whole pages
(`(size + 4095) & !0xFFF` on the 32-bit `usize`, with the `checked_add`
failure as `none`); the freed block is coalesced with adjacent free
entries, the resulting node is written at its start address and becomes
the new list head. -/
def dealloc_internal (fuel : Nat) (st : HeapState) (ptr size : Nat) :
    Option HeapState :=
  if size = 0 then none
  else if U32M ≤ size + 4095 then none
  else
    let alignedSize := (size + 4095) &&& (U32M - 4096)
    let newEntry : FreePagesEntry := ⟨alignedSize / 4096, st.head⟩
    match st.head with
    | none => some ⟨updateMem st.mem ptr newEntry, some ptr⟩
    | some fl =>
      match deallocScan ptr alignedSize fuel st.mem st.head newEntry ptr none fl with
      | none => none
      | some (mem', _, ne, nep) => some ⟨updateMem mem' nep ne, some nep⟩

/-- Initial heap state used by the C6 scenario: empty free list. -/
def heapSt0 : HeapState := ⟨fun _ => ⟨0, none⟩, none⟩

/-- C6, evaluated at the failing input (claim is right, code is wrong).
Freeing `a = 0xC4000000` (4096 bytes) and then `b = a + 4096` (4096 bytes)
does coalesce the page counts into one node at `a` covering
`[a, b + size(b))` (page_count = 2), but that node's `next` field still
holds the OLD list head — which is `a` itself — so the free list is a
self-referential cycle rather than the single properly terminated node
the claim describes. -/
theorem heap_dealloc_coalesce_selfloop :
    ((dealloc_internal 16 heapSt0 3288334336 4096).bind
      (fun st1 => dealloc_internal 16 st1 3288338432 4096)).map
      (fun st2 => (st2.head, st2.mem 3288334336)) =
    some (some 3288334336, ⟨2, some 3288334336⟩) := rfl

/-! ### The ext2 parser, from `src/kernel/libraries/ext2_parser/src/lib.rs`
(claims C2, C3, C7, C8).  A `&[u8]` byte slice is embedded as a total
function from indices to byte values together with its length; multi-byte
fields are little-endian.  An out-of-range slice index panics in the
source; reads here default to 0, and every concrete input below stays in
bounds. -/

structure ByteSlice where
  data : Nat → Nat
  len : Nat

def readU8 (bytes : ByteSlice) (off : Nat) : Nat :=
  if off < bytes.len then bytes.data off else 0

def readU16 (bytes : ByteSlice) (off : Nat) : Nat :=
  readU8 bytes off + 256 * readU8 bytes (off + 1)

def readU32 (bytes : ByteSlice) (off : Nat) : Nat :=
  readU8 bytes off + 256 * readU8 bytes (off + 1) +
    65536 * readU8 bytes (off + 2) + 16777216 * readU8 bytes (off + 3)

/-- The subslice `bytes[start .. start+len]`. -/
def ByteSlice.slice (bytes : ByteSlice) (start len : Nat) : ByteSlice :=
  ⟨fun i => if i < len then readU8 bytes (start + i) else 0, len⟩

/-- The bytes of a slice, as a list. -/
def ByteSlice.toList (bytes : ByteSlice) : List Nat :=
  (List.range bytes.len).map (fun i => readU8 bytes i)

/-- Model of the on-disk `Inode` structure (128 bytes, packed). -/
structure Inode where
  type_and_perms : Nat
  user_id : Nat
  size_low : Nat
  last_access_time : Nat
  creation_time : Nat
  last_modification_time : Nat
  deletion_time : Nat
  group_id : Nat
  hard_link_count : Nat
  disk_sector_count : Nat
  flags : Nat
  os_specific_1 : Nat
  direct_pointers : List Nat
  singly_indirect_pointer : Nat
  doubly_indirect_pointer : Nat
  triply_indirect_pointer : Nat
  generation_number : Nat
  extended_attributes_block : Nat
  size_high : Nat
  fragment_block : Nat
deriving DecidableEq, Repr

/-- Decode the packed `Inode` at byte offset `off` of the image. -/
def decodeInode (bytes : ByteSlice) (off : Nat) : Inode where
  type_and_perms := readU16 bytes off
  user_id := readU16 bytes (off + 2)
  size_low := readU32 bytes (off + 4)
  last_access_time := readU32 bytes (off + 8)
  creation_time := readU32 bytes (off + 12)
  last_modification_time := readU32 bytes (off + 16)
  deletion_time := readU32 bytes (off + 20)
  group_id := readU16 bytes (off + 24)
  hard_link_count := readU16 bytes (off + 26)
  disk_sector_count := readU32 bytes (off + 28)
  flags := readU32 bytes (off + 32)
  os_specific_1 := readU32 bytes (off + 36)
  direct_pointers := (List.range 12).map (fun i => readU32 bytes (off + 40 + 4 * i))
  singly_indirect_pointer := readU32 bytes (off + 88)
  doubly_indirect_pointer := readU32 bytes (off + 92)
  triply_indirect_pointer := readU32 bytes (off + 96)
  generation_number := readU32 bytes (off + 100)
  extended_attributes_block := readU32 bytes (off + 104)
  size_high := readU32 bytes (off + 108)
  fragment_block := readU32 bytes (off + 112)

/-- Model of `InodeType` (high nibble of `type_and_perms`). -/
inductive InodeType where
  | fifo
  | characterDevice
  | directory
  | blockDevice
  | regularFile
  | symbolicLink
  | unixSocket
deriving DecidableEq, Repr

/-- Model of `impl From<u16> for InodeType`: the `unreachable!()` arm for any
other nibble value panics, hence `none`. -/
def InodeType.fromNibble : Nat → Option InodeType
  | 1 => some .fifo
  | 2 => some .characterDevice
  | 4 => some .directory
  | 6 => some .blockDevice
  | 8 => some .regularFile
  | 10 => some .symbolicLink
  | 12 => some .unixSocket
  | _ => none

/-- Model of `Inode::get_type` (`type_and_perms >> 12`). -/
def Inode.get_type (i : Inode) : Option InodeType :=
  InodeType.fromNibble (i.type_and_perms / 4096)

/-- Model of `DirEntryType` (`repr(u8)`). -/
inductive DirEntryType where
  | unknown
  | regularFile
  | directory
  | characterDevice
  | blockDevice
  | buffer
  | socket
  | symbolicLink
deriving DecidableEq, Repr

/-- Decode the on-disk `type_indicator` byte.  A value outside 0..7 makes
the `&*(ptr as *const DirectoryEntry)` reference invalid (undefined
behaviour), hence `none`. -/
def DirEntryType.fromByte : Nat → Option DirEntryType
  | 0 => some .unknown
  | 1 => some .regularFile
  | 2 => some .directory
  | 3 => some .characterDevice
  | 4 => some .blockDevice
  | 5 => some .buffer
  | 6 => some .socket
  | 7 => some .symbolicLink
  | _ => none

def DirEntryType.toByte : DirEntryType → Nat
  | .unknown => 0
  | .regularFile => 1
  | .directory => 2
  | .characterDevice => 3
  | .blockDevice => 4
  | .buffer => 5
  | .socket => 6
  | .symbolicLink => 7

/-- Model of `IterationDecision`. -/
inductive IterationDecision where
  | Continue
  | Break
deriving DecidableEq, Repr

/-- Model of the `Ext2Parser` struct.  The Rust struct stores references
into `raw_bytes` for the superblock, its extension and the block group
descriptor table; here the descriptor table is kept as its byte offset
`bgdt_offset` into `raw_bytes`, and superblock fields are re-read from
`raw_bytes` where needed. -/
structure Ext2Parser where
  raw_bytes : ByteSlice
  block_size : Nat
  inode_count : Nat
  block_count : Nat
  blocks_per_block_group : Nat
  inodes_per_block_group : Nat
  block_group_count : Nat
  num_ptrs_per_block : Nat
  bgdt_offset : Nat

/-- Model of `div_ceil` (free function at the bottom of the parser). -/
def div_ceil (x y : Nat) : Option Nat :=
  if y = 0 then none
  else if x = 0 then some 0
  else some (1 + (x - 1) / y)

/-- Model of `Ext2Parser::parse` (kernel library version).  Field offsets:
the superblock starts at byte 1024 (`magic_signature` at +56,
`major_version` at +76, `block_count` at +4, `superblock_block_number` at
+20, `block_size_exponent` at +24, `num_blocks_in_block_group` at +32,
`num_inodes_in_block_group` at +40, `inode_count` at +0); the extension
starts at 1024 + 84 = 1108 (`inode_size` at +4, `required_feature_flags`
at +12, `writing_feature_flags` at +16).  `!mask` complements over `u32`;
`checked_shl` fails for shifts of 32 or more; the block group count is
computed from the block count AND — as the source actually does — from the
inode count divided by the number of blocks (not inodes) per group. -/
def Ext2Parser.parse (bytes : ByteSlice) : Option Ext2Parser := do
  if bytes.len < 1024 + 1024 then none
  else if readU16 bytes (1024 + 56) ≠ 61267 then none
  else if readU32 bytes (1024 + 76) < 1 then none
  else if readU16 bytes (1108 + 4) ≠ 128 then none
  else if readU32 bytes (1108 + 12) &&& (U32M - 1 - 2) ≠ 0 then none
  else if readU32 bytes (1108 + 12) &&& 2 = 0 then none
  else if readU32 bytes (1108 + 16) &&& (U32M - 1 - 3) ≠ 0 then none
  else if 32 ≤ readU32 bytes (1024 + 24) then none
  else
    let block_size := (1024 <<< readU32 bytes (1024 + 24)) % U32M
    let block_group_count ← div_ceil (readU32 bytes (1024 + 4)) (readU32 bytes (1024 + 32))
    let block_group_count_alt ← div_ceil (readU32 bytes (1024 + 0)) (readU32 bytes (1024 + 32))
    if block_group_count ≠ block_group_count_alt then none
    else if U32M ≤ block_size * readU32 bytes (1024 + 4) then none
    else if bytes.len < block_size * readU32 bytes (1024 + 4) then none
    else
      some {
        raw_bytes := bytes
        block_size := block_size
        inode_count := readU32 bytes (1024 + 0)
        block_count := readU32 bytes (1024 + 4)
        blocks_per_block_group := readU32 bytes (1024 + 32)
        inodes_per_block_group := readU32 bytes (1024 + 40)
        block_group_count := block_group_count
        num_ptrs_per_block := block_size / 4
        bgdt_offset := ((readU32 bytes (1024 + 20) + 1) * block_size) % U32M }

/-- Model of `Ext2Parser::get_inode`.  The source `assert!`s
`1 <= inode <= inode_count` and indexes the descriptor slice of length
`block_group_count`; assertion failures, division by zero and the
out-of-bounds slice index are `none`.  Each block group descriptor is 32
bytes with `inode_table_start_addr` at offset 8;
`size_of::<Inode>() = 128`. -/
def Ext2Parser.get_inode (p : Ext2Parser) (inode : Nat) : Option Inode :=
  if inode < 1 then none
  else if p.inode_count < inode then none
  else if p.inodes_per_block_group = 0 then none
  else
    let block_group := (inode - 1) / p.inodes_per_block_group
    let inode_index := (inode - 1) % p.inodes_per_block_group
    if p.block_group_count ≤ block_group then none
    else
      let inode_table_block_addr :=
        readU32 p.raw_bytes (p.bgdt_offset + 32 * block_group + 8)
      some (decodeInode p.raw_bytes
        (inode_table_block_addr * p.block_size + inode_index * 128))

/-- Model of `Ext2Parser::get_block`: the byte slice
`raw_bytes[block*block_size .. +block_size]`. -/
def Ext2Parser.get_block (p : Ext2Parser) (block : Nat) : ByteSlice :=
  p.raw_bytes.slice (block * p.block_size) p.block_size

/-- Model of `Ext2Parser::get_ptrs_block`: the block read as
`num_ptrs_per_block` little-endian `u32` block addresses. -/
def Ext2Parser.get_ptrs_block (p : Ext2Parser) (block : Nat) : List Nat :=
  (List.range p.num_ptrs_per_block).map
    (fun i => readU32 p.raw_bytes (block * p.block_size + 4 * i))

/-- The direct-pointer loop of `for_each_data_block`: every one of the 12
direct pointers is passed to the callback (there is no zero check); a
`Break` from the callback returns from the whole function (the `Bool`
records that). -/
def runDirect {σ : Type} (p : Ext2Parser)
    (cb : σ → ByteSlice → σ × IterationDecision) :
    List Nat → σ → σ × Bool
  | [], s => (s, false)
  | ptr :: rest, s =>
    match cb s (p.get_block ptr) with
    | (s', IterationDecision.Break) => (s', true)
    | (s', IterationDecision.Continue) => runDirect p cb rest s'

/-- The loop of `for_each_indirect_block` over a pointer list: a zero
pointer or a callback `Break` ends this loop. -/
def runIndirect {σ : Type} (p : Ext2Parser)
    (cb : σ → ByteSlice → σ × IterationDecision) :
    List Nat → σ → σ
  | [], s => s
  | ptr :: rest, s =>
    if ptr = 0 then s
    else
      match cb s (p.get_block ptr) with
      | (s', IterationDecision.Break) => s'
      | (s', IterationDecision.Continue) => runIndirect p cb rest s'

/-- Model of `Ext2Parser::for_each_indirect_block`. -/
def Ext2Parser.for_each_indirect_block {σ : Type} (p : Ext2Parser)
    (cb : σ → ByteSlice → σ × IterationDecision) (block : Nat) (s : σ) : σ :=
  runIndirect p cb (p.get_ptrs_block block) s

/-- The loop of `for_each_doubly_indirect_block`: only a zero pointer ends
it — a callback `Break` inside `for_each_indirect_block` does not stop the
scan of the remaining singly-indirect pointer blocks. -/
def runDoubly {σ : Type} (p : Ext2Parser)
    (cb : σ → ByteSlice → σ × IterationDecision) :
    List Nat → σ → σ
  | [], s => s
  | ptr :: rest, s =>
    if ptr = 0 then s
    else runDoubly p cb rest (p.for_each_indirect_block cb ptr s)

/-- Model of `Ext2Parser::for_each_doubly_indirect_block`. -/
def Ext2Parser.for_each_doubly_indirect_block {σ : Type} (p : Ext2Parser)
    (cb : σ → ByteSlice → σ × IterationDecision) (block : Nat) (s : σ) : σ :=
  runDoubly p cb (p.get_ptrs_block block) s

/-- The loop of `for_each_triply_indirect_block` (zero pointer ends it). -/
def runTriply {σ : Type} (p : Ext2Parser)
    (cb : σ → ByteSlice → σ × IterationDecision) :
    List Nat → σ → σ
  | [], s => s
  | ptr :: rest, s =>
    if ptr = 0 then s
    else runTriply p cb rest (p.for_each_doubly_indirect_block cb ptr s)

/-- Model of `Ext2Parser::for_each_triply_indirect_block`. -/
def Ext2Parser.for_each_triply_indirect_block {σ : Type} (p : Ext2Parser)
    (cb : σ → ByteSlice → σ × IterationDecision) (block : Nat) (s : σ) : σ :=
  runTriply p cb (p.get_ptrs_block block) s

/-- Model of `Ext2Parser::for_each_data_block`: the 12 direct pointers
(unconditionally), then the singly, doubly and triply indirect trees.  A
callback `Break` in the direct loop returns from the function; the three
indirect calls are made in sequence regardless of earlier breaks.  `none`
is the panic of the `get_inode` asserts. -/
def Ext2Parser.for_each_data_block {σ : Type} (p : Ext2Parser)
    (cb : σ → ByteSlice → σ × IterationDecision) (inode : Nat) (s : σ) :
    Option σ :=
  match p.get_inode inode with
  | none => none
  | some inode_metadata =>
    match runDirect p cb inode_metadata.direct_pointers s with
    | (s1, true) => some s1
    | (s1, false) =>
      let s2 := p.for_each_indirect_block cb inode_metadata.singly_indirect_pointer s1
      let s3 := p.for_each_doubly_indirect_block cb inode_metadata.doubly_indirect_pointer s2
      let s4 := p.for_each_triply_indirect_block cb inode_metadata.triply_indirect_pointer s3
      some s4

/-- All block contents passed to a callback of `for_each_data_block` that
always continues, in order (each block rendered as its byte list). -/
def Ext2Parser.dataBlocksList (p : Ext2Parser) (inode : Nat) :
    Option (List (List Nat)) :=
  p.for_each_data_block
    (fun acc b => (acc ++ [b.toList], IterationDecision.Continue)) inode []

/-- Callback state of `get_contents_with_offset`: bytes written to the out
buffer so far, `total_read` and `data_offset`. -/
structure GcState where
  written : List Nat
  total_read : Nat
  data_offset : Nat
deriving DecidableEq, Repr

/-- Model of `Ext2Parser::get_contents_with_offset`: returns the bytes
written into `out_buffer` and the returned count.  `out_buffer` is modelled
by its length `bufLen`.  The copy is the source's
`out_buffer[total_read..total_read+size_left]
  .copy_from_slice(&data_block[..size_left])` — note the right-hand slice
starts at the beginning of the block, not at `block_offset`.
`file_size - data_offset` is a `usize` subtraction; in all reachable
callback states `data_offset` has not passed `file_size`, matching the
truncated `Nat` subtraction used here. -/
def Ext2Parser.get_contents_with_offset (p : Ext2Parser) (inode : Nat)
    (bufLen : Nat) (offset : Nat) : Option (List Nat × Nat) :=
  if bufLen = 0 then some ([], 0)
  else
    match p.get_inode inode with
    | none => none
    | some inode_metadata =>
      let file_size := inode_metadata.size_low
      (p.for_each_data_block (fun st data_block =>
        let block_length := min data_block.len (file_size - st.data_offset)
        if offset < st.data_offset + block_length then
          let block_offset := if st.data_offset < offset then offset - st.data_offset else 0
          let left_in_block := block_length - block_offset
          let size_left := min left_in_block (bufLen - st.total_read)
          let st1 : GcState :=
            ⟨st.written ++ (List.range size_left).map (readU8 data_block),
              st.total_read + size_left, st.data_offset⟩
          if st1.total_read = bufLen then (st1, IterationDecision.Break)
          else
            let st2 : GcState := ⟨st1.written, st1.total_read, st1.data_offset + p.block_size⟩
            if file_size ≤ st2.data_offset then (st2, IterationDecision.Break)
            else (st2, IterationDecision.Continue)
        else
          let st2 : GcState := ⟨st.written, st.total_read, st.data_offset + p.block_size⟩
          if file_size ≤ st2.data_offset then (st2, IterationDecision.Break)
          else (st2, IterationDecision.Continue)) inode ⟨[], 0, 0⟩).map
        (fun st => (st.written, st.total_read))

/-- Model of `Ext2Parser::get_contents`. -/
def Ext2Parser.get_contents (p : Ext2Parser) (inode : Nat) (bufLen : Nat) :
    Option (List Nat × Nat) :=
  p.get_contents_with_offset inode bufLen 0

/-- The per-block `while curr_offset < block_size` loop of
`for_each_directory_entry`.  Each on-disk `DirectoryEntry` header is 8
bytes: `inode` at +0 (u32), `size` at +4 (u16), `name_length` at +6 (u8),
`type_indicator` at +7 (u8), then the name bytes.  `none` models a panic
or undefined behaviour: the name slice running past the block, an invalid
`type_indicator` byte, or a panic inside the callback.  The loop advances
`curr` by the entry size (at least 1 unless the loop breaks), so
`fuel = block_size` steps always suffice; the fuel is only a termination
device and `none`-by-exhaustion is unreachable at such calls. -/
def walkBlockEntries {σ : Type} (p : Ext2Parser)
    (cb : σ → Nat → List Nat → DirEntryType → Option (σ × IterationDecision)) :
    Nat → ByteSlice → Nat → σ → Option (σ × IterationDecision)
  | 0, _, _, _ => none
  | fuel + 1, blk, curr, st =>
    if curr < p.block_size then
      let size := readU16 blk (curr + 4)
      if size = 0 then some (st, IterationDecision.Break)
      else
        let entry_inode := readU32 blk curr
        if entry_inode = 0 then walkBlockEntries p cb fuel blk (curr + size) st
        else
          let name_length := readU8 blk (curr + 6)
          if p.block_size < curr + 8 + name_length then none
          else
            match DirEntryType.fromByte (readU8 blk (curr + 7)) with
            | none => none
            | some ty =>
              match cb st entry_inode
                ((List.range name_length).map (fun i => readU8 blk (curr + 8 + i))) ty with
              | none => none
              | some (st', IterationDecision.Break) =>
                some (st', IterationDecision.Break)
              | some (st', IterationDecision.Continue) =>
                walkBlockEntries p cb fuel blk (curr + size) st'
    else some (st, IterationDecision.Continue)

/-- Model of `Ext2Parser::for_each_directory_entry`.  The callback
receives `(entry_inode, filename bytes, entry_type)`; the source decodes
the filename with `from_utf8(..).unwrap()`, which this byte-level model
keeps as raw bytes (all names used below are ASCII).  `none` is a panic:
the `assert!` that `inode` is a directory, an `InodeType` decode failure,
or a panic inside a block (panics are absorbing across the data-block
iteration). -/
def Ext2Parser.for_each_directory_entry {σ : Type} (p : Ext2Parser)
    (cb : σ → Nat → List Nat → DirEntryType → Option (σ × IterationDecision))
    (inode : Nat) (s : σ) : Option σ :=
  match p.get_inode inode with
  | none => none
  | some inode_metadata =>
    match inode_metadata.get_type with
    | none => none
    | some ty =>
      if ty ≠ InodeType.directory then none
      else
        match p.for_each_data_block (fun ost blk =>
          match ost with
          | none => (none, IterationDecision.Break)
          | some s0 =>
            match walkBlockEntries p cb p.block_size blk 0 s0 with
            | none => (none, IterationDecision.Break)
            | some (s', d) => (some s', d)) inode (some s) with
        | none => none
        | some none => none
        | some (some s') => some s'

/-- The per-block loop of `get_next_directory_entry`, tracking the running
`total_offset`, the mutable `opaque_offset` argument (tombstone entries
with inode 0 advance it) and the `result` option.  Fuel as in
`walkBlockEntries`. -/
def nextDirWalk (p : Ext2Parser) :
    Nat → ByteSlice → Nat → Nat × Nat × Option (Nat × Nat × List Nat × DirEntryType) →
    Option ((Nat × Nat × Option (Nat × Nat × List Nat × DirEntryType)) × IterationDecision)
  | 0, _, _, _ => none
  | fuel + 1, blk, curr, (total, opq, result) =>
    if curr < p.block_size then
      let size := readU16 blk (curr + 4)
      if size = 0 then some ((total, opq, result), IterationDecision.Break)
      else
        if total = opq then
          let entry_inode := readU32 blk curr
          if entry_inode = 0 then
            nextDirWalk p fuel blk (curr + size) (total + size, opq + size, result)
          else
            let name_length := readU8 blk (curr + 6)
            if p.block_size < curr + 8 + name_length then none
            else
              match DirEntryType.fromByte (readU8 blk (curr + 7)) with
              | none => none
              | some ty =>
                some ((total, opq,
                  some (total + size, entry_inode,
                    (List.range name_length).map (fun i => readU8 blk (curr + 8 + i)), ty)),
                  IterationDecision.Break)
        else if opq < total then some ((total, opq, result), IterationDecision.Break)
        else nextDirWalk p fuel blk (curr + size) (total + size, opq, result)
    else some ((total, opq, result), IterationDecision.Continue)

/-- Model of `Ext2Parser::get_next_directory_entry`.  The outer `none` is
a panic (non-directory assert or entry decode); `some none` means no more
entries; `some (some (next_opaque_offset, inode, filename, entry_type))`
is the next entry. -/
def Ext2Parser.get_next_directory_entry (p : Ext2Parser) (inode : Nat)
    (opq_offset : Nat) : Option (Option (Nat × Nat × List Nat × DirEntryType)) :=
  match p.get_inode inode with
  | none => none
  | some inode_metadata =>
    match inode_metadata.get_type with
    | none => none
    | some ty =>
      if ty ≠ InodeType.directory then none
      else
        match p.for_each_data_block (fun ost blk =>
          match ost with
          | none => (none, IterationDecision.Break)
          | some s0 =>
            match nextDirWalk p p.block_size blk 0 s0 with
            | none => (none, IterationDecision.Break)
            | some (s', d) => (some s', d)) inode (some (0, opq_offset, none)) with
        | none => none
        | some none => none
        | some (some (_, _, result)) => some result

/-- Result of `resolve_path_to_inode`: `Some((inode, entry_type))`,
`None`, or a panic inside resolution (symbolic link `todo!`, invalid
entry, non-directory assert). -/
inductive RResult where
  | ok (inode : Nat) (ty : DirEntryType)
  | notFound
  | panicked
deriving DecidableEq, Repr

def RResult.isDirectory : RResult → Bool
  | RResult.ok _ ty => ty = DirEntryType.directory
  | _ => false

/-- Rust's `str::split('/')` on a byte string: always at least one
(possibly empty) component; a leading, trailing or doubled separator
yields empty components. -/
def splitSlash : List Nat → List (List Nat)
  | [] => [[]]
  | c :: rest =>
    if c = 47 then [] :: splitSlash rest
    else
      match splitSlash rest with
      | [] => [[c]]
      | comp :: comps => (c :: comp) :: comps

/-- State of the mutable variables captured by the component-search
closure in `resolve_path_to_inode`: `inode`, `entry_type`,
`reached_file`, `found_match`. -/
structure SearchSt where
  inode : Nat
  entry_type : DirEntryType
  reached_file : Bool
  found_match : Bool
deriving DecidableEq, Repr

/-- The directory-entry callback of `resolve_path_to_inode` for one path
component: on a name match it records the child and breaks; a symbolic
link hits `todo!("Handle symbolic links")` (panic); a non-directory child
sets `reached_file`. -/
def resolveCb (component : List Nat) :
    SearchSt → Nat → List Nat → DirEntryType → Option (SearchSt × IterationDecision) :=
  fun st child_inode child_name child_type =>
    if child_name = component then
      if child_type = DirEntryType.symbolicLink then none
      else
        some ({ inode := child_inode, entry_type := child_type,
                reached_file := st.reached_file || child_type ≠ DirEntryType.directory,
                found_match := true }, IterationDecision.Break)
    else some (st, IterationDecision.Continue)

/-- The `for component in path.split('/')` loop of
`resolve_path_to_inode`, carrying the current `inode`, `entry_type` and
`reached_file`. -/
def resolveLoop (p : Ext2Parser) :
    List (List Nat) → Nat → DirEntryType → Bool → RResult
  | [], inode, ty, _ => RResult.ok inode ty
  | component :: rest, inode, ty, reached_file =>
    if component = [] ∨ reached_file then RResult.notFound
    else
      match p.for_each_directory_entry (resolveCb component) inode
        ⟨inode, ty, reached_file, false⟩ with
      | none => RResult.panicked
      | some st =>
        if st.found_match then resolveLoop p rest st.inode st.entry_type st.reached_file
        else RResult.notFound

/-- Model of `Ext2Parser::resolve_path_to_inode` over the path's byte
list (47 is the byte of the path separator).  `ROOT_INODE = 2`.  A path
equal to the separator alone returns the root; a leading separator resets
the base inode to the root; a trailing separator is stripped and sets
`must_be_dir`, checked against the final entry type. -/
def Ext2Parser.resolve_path_to_inode (p : Ext2Parser) (path : List Nat)
    (base_inode : Nat) : RResult :=
  if path = [47] then RResult.ok 2 DirEntryType.directory
  else
    let stripped := if path.head? = some 47 then path.drop 1 else path
    let base := if path.head? = some 47 then 2 else base_inode
    let body := if stripped.getLast? = some 47 then stripped.dropLast else stripped
    let must_be_dir := stripped.getLast? = some 47
    match resolveLoop p (splitSlash body) base DirEntryType.directory false with
    | RResult.ok i ty =>
      if must_be_dir ∧ ty ≠ DirEntryType.directory then RResult.notFound
      else RResult.ok i ty
    | r => r

/-! ### Concrete filesystem images -/

/-- Byte `i` of a small, fully consistent 6 KiB ext2 image: block size
1024, 6 blocks, one block group, 3 inodes.  Superblock in block 1, block
group descriptor table in block 2 (inode table at block 3), inode table in
block 3 (inode 1: a 1024-byte regular file whose data is block 4 and
begins `65, 66`; inode 2: the root directory, data in block 5, holding the
single entry `a` → inode 1; inode 3: all zeros, so all of its block
pointers are zero). -/
def ext2imgByte (i : Nat) : Nat :=
  if i = 1024 then 3
  else if i = 1028 then 6
  else if i = 1044 then 1
  else if i = 1056 then 6
  else if i = 1064 then 3
  else if i = 1080 then 83
  else if i = 1081 then 239
  else if i = 1100 then 1
  else if i = 1112 then 128
  else if i = 1120 then 2
  else if i = 2056 then 3
  else if i = 3073 then 129
  else if i = 3077 then 4
  else if i = 3112 then 4
  else if i = 3201 then 64
  else if i = 3205 then 4
  else if i = 3240 then 5
  else if i = 4096 then 65
  else if i = 4097 then 66
  else if i = 5120 then 1
  else if i = 5125 then 4
  else if i = 5126 then 1
  else if i = 5127 then 1
  else if i = 5128 then 97
  else 0

def ext2imgBytes : ByteSlice := ⟨ext2imgByte, 6144⟩

/-- The parser for `ext2imgBytes` (checked below to equal
`Ext2Parser.parse ext2imgBytes`). -/
def ext2img : Ext2Parser :=
  ⟨ext2imgBytes, 1024, 3, 6, 6, 3, 1, 256, 2048⟩

/-- Byte `i` of a 2 KiB image whose superblock passes every check of
`parse` while its block-group counts are inconsistent: 2 blocks with 1
block per group (2 groups), but 2 inodes with 2 inodes per group (1
group). -/
def ext2img7Byte (i : Nat) : Nat :=
  if i = 1024 then 2
  else if i = 1028 then 2
  else if i = 1056 then 1
  else if i = 1064 then 2
  else if i = 1080 then 83
  else if i = 1081 then 239
  else if i = 1100 then 1
  else if i = 1112 then 128
  else if i = 1120 then 2
  else 0

def ext2img7Bytes : ByteSlice := ⟨ext2img7Byte, 2048⟩

set_option maxRecDepth 100000

/-- Sanity: the concrete parser is exactly what `parse` produces on the
consistent image. -/
theorem ext2img_parse_eq : Ext2Parser.parse ext2imgBytes = some ext2img := by
  rfl

/-- C2: on the consistent image, inode 1 is a 1024-byte file whose bytes
begin `65, 66`.  Reading 1 byte at file offset 1 must yield byte 66, but
`get_contents_with_offset` copies from the start of the data block
(`&data_block[..size_left]`, ignoring `block_offset`) and returns byte 65:
offsets within the first selected block are not honoured. -/
theorem get_contents_with_offset_wrong_byte :
    ext2img.get_contents_with_offset 1 1 1 = some ([65], 1) ∧
    readU8 ext2img.raw_bytes (4 * 1024 + 0) = 65 ∧
    readU8 ext2img.raw_bytes (4 * 1024 + 1) = 66 :=
  ⟨rfl, rfl, rfl⟩

/-- C7: `parse` accepts the inconsistent image: the block-group count from
the block count is `ceil(2/1) = 2` while the one from the inode count is
`ceil(2/2) = 1`, yet `parse` succeeds because it divides the inode count
by `num_blocks_in_block_group` (1) instead of `num_inodes_in_block_group`
(2), contradicting the agreement check the claim (and the source's own
comment) describe. -/
theorem parse_group_count_counterexample :
    (Ext2Parser.parse ext2img7Bytes).isSome = true ∧
    div_ceil (readU32 ext2img7Bytes (1024 + 4)) (readU32 ext2img7Bytes (1024 + 32)) = some 2 ∧
    div_ceil (readU32 ext2img7Bytes (1024 + 0)) (readU32 ext2img7Bytes (1024 + 40)) = some 1 :=
  ⟨rfl, rfl, rfl⟩

set_option maxHeartbeats 4000000 in
/-- C3 counterexample: inode 3 of the consistent image has all twelve
direct pointers equal to 0 (and zero indirect pointers), yet
`for_each_data_block` invokes the callback twelve times, each time on the
1024 bytes of block number 0 — the claimed zero-pointer termination does
not happen at the direct level. -/
theorem for_each_data_block_zero_counterexample :
    (ext2img.get_inode 3).map Inode.direct_pointers = some (List.replicate 12 0) ∧
    ext2img.dataBlocksList 3 = some (List.replicate 12 (List.replicate 1024 0)) :=
  ⟨rfl, rfl⟩

theorem runDirect_collect (p : Ext2Parser) (l : List Nat) (s : List (List Nat)) :
    runDirect p (fun acc b => (acc ++ [b.toList], IterationDecision.Continue)) l s =
      (s ++ l.map (fun ptr => (p.get_block ptr).toList), false) := by
  induction l generalizing s with
  | nil => simp [runDirect]
  | cons ptr rest ih => simp [runDirect, ih]

theorem runIndirect_collect (p : Ext2Parser) (l : List Nat) (s : List (List Nat)) :
    runIndirect p (fun acc b => (acc ++ [b.toList], IterationDecision.Continue)) l s =
      s ++ (l.takeWhile (fun b => b != 0)).map (fun ptr => (p.get_block ptr).toList) := by
  induction l generalizing s with
  | nil => simp [runIndirect]
  | cons ptr rest ih =>
    by_cases h : ptr = 0
    · subst h
      simp [runIndirect, List.takeWhile_cons]
    · simp [runIndirect, List.takeWhile_cons, h, ih]

theorem runDoubly_collect (p : Ext2Parser) (l : List Nat) (s : List (List Nat)) :
    runDoubly p (fun acc b => (acc ++ [b.toList], IterationDecision.Continue)) l s =
      s ++ (l.takeWhile (fun b => b != 0)).flatMap
        (fun q => ((p.get_ptrs_block q).takeWhile (fun b => b != 0)).map
          (fun ptr => (p.get_block ptr).toList)) := by
  induction l generalizing s with
  | nil => simp [runDoubly]
  | cons ptr rest ih =>
    by_cases h : ptr = 0
    · subst h
      simp [runDoubly, List.takeWhile_cons]
    · simp [runDoubly, List.takeWhile_cons, h, ih,
        Ext2Parser.for_each_indirect_block, runIndirect_collect]

theorem runTriply_collect (p : Ext2Parser) (l : List Nat) (s : List (List Nat)) :
    runTriply p (fun acc b => (acc ++ [b.toList], IterationDecision.Continue)) l s =
      s ++ (l.takeWhile (fun b => b != 0)).flatMap
        (fun q2 => ((p.get_ptrs_block q2).takeWhile (fun b => b != 0)).flatMap
          (fun q => ((p.get_ptrs_block q).takeWhile (fun b => b != 0)).map
            (fun ptr => (p.get_block ptr).toList))) := by
  induction l generalizing s with
  | nil => simp [runTriply]
  | cons ptr rest ih =>
    by_cases h : ptr = 0
    · subst h
      simp [runTriply, List.takeWhile_cons]
    · simp [runTriply, List.takeWhile_cons, h, ih,
        Ext2Parser.for_each_doubly_indirect_block, runDoubly_collect]

/-- C3 (amended): the exact visit order of `for_each_data_block`.  All 12
direct pointers are passed to the callback unconditionally — a zero direct
pointer does not terminate the iteration, and block number 0 is read for
it.  Only inside a singly-indirect pointer block (at any depth) does a
zero entry end that block's scan; a zero top-level or mid-level indirect
pointer ends the enclosing scan but block 0 is still consulted as the
pointer block of the singly/doubly/triply phases themselves. -/
theorem for_each_data_block_visit_order (p : Ext2Parser) (inode : Nat) (m : Inode)
    (hm : p.get_inode inode = some m) :
    p.dataBlocksList inode = some (
      m.direct_pointers.map (fun ptr => (p.get_block ptr).toList) ++
      (((p.get_ptrs_block m.singly_indirect_pointer).takeWhile (fun b => b != 0)).map
        (fun ptr => (p.get_block ptr).toList) ++
      (((p.get_ptrs_block m.doubly_indirect_pointer).takeWhile (fun b => b != 0)).flatMap
        (fun q => ((p.get_ptrs_block q).takeWhile (fun b => b != 0)).map
          (fun ptr => (p.get_block ptr).toList)) ++
      ((p.get_ptrs_block m.triply_indirect_pointer).takeWhile (fun b => b != 0)).flatMap
        (fun q2 => ((p.get_ptrs_block q2).takeWhile (fun b => b != 0)).flatMap
          (fun q => ((p.get_ptrs_block q).takeWhile (fun b => b != 0)).map
            (fun ptr => (p.get_block ptr).toList)))))) := by
  unfold Ext2Parser.dataBlocksList Ext2Parser.for_each_data_block
  rw [hm]
  dsimp only
  rw [runDirect_collect]
  dsimp only
  unfold Ext2Parser.for_each_indirect_block Ext2Parser.for_each_doubly_indirect_block
    Ext2Parser.for_each_triply_indirect_block
  rw [runIndirect_collect, runDoubly_collect, runTriply_collect]
  simp [List.append_assoc]

/-- C3 witness: the visit-order theorem applied to inode 3 of the
consistent image. -/
theorem for_each_data_block_visit_order_witness :
    ext2img.dataBlocksList 3 = some (
      (decodeInode ext2imgBytes 3328).direct_pointers.map
        (fun ptr => (ext2img.get_block ptr).toList) ++
      (((ext2img.get_ptrs_block
            (decodeInode ext2imgBytes 3328).singly_indirect_pointer).takeWhile
          (fun b => b != 0)).map (fun ptr => (ext2img.get_block ptr).toList) ++
      (((ext2img.get_ptrs_block
            (decodeInode ext2imgBytes 3328).doubly_indirect_pointer).takeWhile
          (fun b => b != 0)).flatMap
        (fun q => ((ext2img.get_ptrs_block q).takeWhile (fun b => b != 0)).map
          (fun ptr => (ext2img.get_block ptr).toList)) ++
      ((ext2img.get_ptrs_block
            (decodeInode ext2imgBytes 3328).triply_indirect_pointer).takeWhile
          (fun b => b != 0)).flatMap
        (fun q2 => ((ext2img.get_ptrs_block q2).takeWhile (fun b => b != 0)).flatMap
          (fun q => ((ext2img.get_ptrs_block q).takeWhile (fun b => b != 0)).map
            (fun ptr => (ext2img.get_block ptr).toList)))))) :=
  for_each_data_block_visit_order ext2img 3 (decodeInode ext2imgBytes 3328) rfl

theorem getLast?_cons_of_ne_nil {α : Type} (a : α) (l : List α) (h : l ≠ []) :
    (a :: l).getLast? = l.getLast? := by
  cases l with
  | nil => exact absurd rfl h
  | cons b bs => simp [List.getLast?_cons_cons]

theorem getLast?_append_single {α : Type} (l : List α) (a : α) :
    (l ++ [a]).getLast? = some a := by
  induction l with
  | nil => rfl
  | cons b bs ih =>
    rw [List.cons_append, getLast?_cons_of_ne_nil b (bs ++ [a]) (by simp), ih]

theorem dropLast_append_single {α : Type} (l : List α) (a : α) :
    (l ++ [a]).dropLast = l := by
  induction l with
  | nil => rfl
  | cons b bs ih =>
    rw [List.cons_append]
    cases bs with
    | nil => rfl
    | cons e es =>
      rw [show ((b :: (e :: es ++ [a])).dropLast = b :: (e :: es ++ [a]).dropLast) from rfl]
      rw [ih]

/-- C8 counterexample: the root path and the root path with a trailing
separator.  The path consisting of the separator alone resolves to the
root directory, but appending another separator yields an empty path
component and resolution fails — even though the original path resolves to
a directory, contradicting the claimed equivalence. -/
theorem resolve_trailing_slash_counterexample :
    ¬ (ext2img.resolve_path_to_inode ([47] ++ [47]) 2 =
         ext2img.resolve_path_to_inode [47] 2 ↔
       (ext2img.resolve_path_to_inode [47] 2).isDirectory = true) := by
  decide

/-- C8 (amended): for paths that do not already end in the separator,
appending a trailing separator preserves the result exactly when the path
resolves to a directory, and fails (`None`) when it resolves to a
non-directory.  (For paths already ending in a separator — including the
bare root path — appending another separator creates an empty component
and resolution fails regardless.) -/
theorem resolve_path_trailing_slash (p : Ext2Parser) (path : List Nat) (base i : Nat)
    (ty : DirEntryType) (hnt : path.getLast? ≠ some 47)
    (hok : p.resolve_path_to_inode path base = RResult.ok i ty) :
    p.resolve_path_to_inode (path ++ [47]) base =
      (if ty = DirEntryType.directory then RResult.ok i ty else RResult.notFound) := by
  cases path with
  | nil =>
    exfalso
    simp [Ext2Parser.resolve_path_to_inode, splitSlash, resolveLoop] at hok
  | cons c cs =>
    have h47 : (c :: cs) ≠ [47] := by
      intro h
      rw [h] at hnt
      exact hnt rfl
    have h47' : (c :: cs) ++ [47] ≠ ([47] : List Nat) := by
      intro h
      have hl := congrArg List.length h
      simp at hl
    by_cases hc : c = 47
    · subst hc
      cases cs with
      | nil => exact absurd rfl h47
      | cons d ds =>
        rw [getLast?_cons_of_ne_nil 47 (d :: ds) (List.cons_ne_nil d ds)] at hnt
        have hgl : (d :: (ds ++ [47]) : List Nat).getLast? = some 47 := by
          rw [← List.cons_append]
          exact getLast?_append_single (d :: ds) 47
        have hdl : (d :: (ds ++ [47]) : List Nat).dropLast = d :: ds := by
          rw [← List.cons_append]
          exact dropLast_append_single (d :: ds) 47
        have hno : ((47 :: d :: (ds ++ [47]) : List Nat) = [47]) = False := by
          simp
        unfold Ext2Parser.resolve_path_to_inode at hok ⊢
        simp only [h47, if_false, List.head?_cons, List.drop_succ_cons, List.drop_zero,
          reduceIte, hnt] at hok
        simp only [List.cons_append, List.head?_cons, List.drop_succ_cons, List.drop_zero,
          hno, if_false, hgl, hdl, Option.some.injEq, eq_self_iff_true, true_and, reduceIte]
        cases hR : resolveLoop p (splitSlash (d :: ds)) 2 DirEntryType.directory false with
        | ok j tyj =>
          rw [hR] at hok
          injection hok with h1 h2
          rw [← h1, ← h2]
          by_cases hty : tyj = DirEntryType.directory <;> simp [hty]
        | notFound =>
          rw [hR] at hok
          simp at hok
        | panicked =>
          rw [hR] at hok
          simp at hok
    · have hgl : (c :: (cs ++ [47]) : List Nat).getLast? = some 47 := by
        rw [← List.cons_append]
        exact getLast?_append_single (c :: cs) 47
      have hdl : (c :: (cs ++ [47]) : List Nat).dropLast = c :: cs := by
        rw [← List.cons_append]
        exact dropLast_append_single (c :: cs) 47
      have hno : ((c :: (cs ++ [47]) : List Nat) = [47]) = False := by
        simp [hc]
      unfold Ext2Parser.resolve_path_to_inode at hok ⊢
      simp only [h47, if_false, List.head?_cons, Option.some.injEq, hc, reduceIte,
        hnt] at hok
      simp only [List.cons_append, List.head?_cons, List.drop_succ_cons, List.drop_zero,
        hno, if_false, hgl, hdl, Option.some.injEq, hc, eq_self_iff_true, true_and,
        reduceIte]
      cases hR : resolveLoop p (splitSlash (c :: cs)) base DirEntryType.directory false with
      | ok j tyj =>
        rw [hR] at hok
        injection hok with h1 h2
        rw [← h1, ← h2]
        by_cases hty : tyj = DirEntryType.directory <;> simp [hty]
      | notFound =>
        rw [hR] at hok
        simp at hok
      | panicked =>
        rw [hR] at hok
        simp at hok

/-- C8 witness: on the consistent image the path `a` resolves to the
regular file with inode 1, and `a/` therefore fails to resolve. -/
theorem resolve_path_trailing_slash_witness :
    ext2img.resolve_path_to_inode ([97] ++ [47]) 2 =
      (if DirEntryType.regularFile = DirEntryType.directory
        then RResult.ok 1 DirEntryType.regularFile else RResult.notFound) :=
  resolve_path_trailing_slash ext2img [97] 2 1 DirEntryType.regularFile
    (by decide) (by decide)

/-! ### Processes, file descriptors and syscalls (claims C9, C10), from
`src/kernel/src/process.rs`, `src/kernel/src/vfs.rs` and
`src/kernel/src/syscall.rs` -/

/-- Model of `vfs::FileType`. -/
inductive FileType where
  | file
  | directory
deriving DecidableEq, Repr

/-- Model of `vfs::FileDescription`. -/
structure FileDescription where
  inode : Nat
  offset : Nat
  status : Nat
  file_type : FileType
deriving DecidableEq, Repr

/-- Model of the per-process state touched by the file syscalls: the
file-descriptor table (each entry an index into the global description
table; 16 entries in the kernel) and the working-directory inode. -/
structure Process where
  file_descriptors : List (Option Nat)
  cwd_inode : Nat
deriving DecidableEq, Repr

/-- Model of `Process::get_file_descriptor`. -/
def Process.get_file_descriptor (proc : Process) (fd : Nat) : Option Nat :=
  if proc.file_descriptors.length ≤ fd then none
  else proc.file_descriptors.getD fd none

/-- First `None` slot at index at least `start` (the
`iter_mut().enumerate()` scans of `alloc_file_descriptor` and
`add_description`). -/
def findFreeSlot {α : Type} : List (Option α) → Nat → Option Nat
  | [], _ => none
  | none :: _, i => some i
  | some _ :: rest, i => findFreeSlot rest (i + 1)

/-- Model of `Process::alloc_file_descriptor`: the scan starts at index 3
(`.skip(3)`, marked `FIXME: REMOVE DEBUG SKIP 3` in the source), stores
`desc` in the first free slot and returns its index. -/
def Process.alloc_file_descriptor (proc : Process) (desc : Nat) : Option (Nat × Process) :=
  match findFreeSlot (proc.file_descriptors.drop 3) 3 with
  | none => none
  | some i => some (i, { proc with file_descriptors := proc.file_descriptors.set i (some desc) })

/-- Model of `FileDescriptionTable::add_description` (scan from index 0 of
the 256-entry table). -/
def add_description (descs : List (Option FileDescription)) (d : FileDescription) :
    Option (Nat × List (Option FileDescription)) :=
  match findFreeSlot descs 0 with
  | none => none
  | some i => some (i, descs.set i (some d))

/-- Model of `FileDescriptionTable::get_description`. -/
def get_description (descs : List (Option FileDescription)) (idx : Nat) :
    Option FileDescription :=
  if idx < descs.length then descs.getD idx none else none

/-- Model of `SyscallError` (`repr` values 1..9). -/
inductive SyscallError where
  | unknownSyscall
  | invalidFileDescriptor
  | openFileLimitReached
  | invalidAddress
  | invalidPath
  | pathIsDirectory
  | pathIsNotDirectory
  | bufferTooSmall
  | invalidElfFile
deriving DecidableEq, Repr

def SyscallError.code : SyscallError → Nat
  | .unknownSyscall => 1
  | .invalidFileDescriptor => 2
  | .openFileLimitReached => 3
  | .invalidAddress => 4
  | .invalidPath => 5
  | .pathIsDirectory => 6
  | .pathIsNotDirectory => 7
  | .bufferTooSmall => 8
  | .invalidElfFile => 9

/-- Model of `SyscallError::to_i32` (`-(self as i32)`). -/
def SyscallError.to_i32 (e : SyscallError) : Int := -(e.code : Int)

def u32le (x : Nat) : List Nat :=
  [x % 256, x / 256 % 256, x / 65536 % 256, x / 16777216 % 256]

/-- The `SyscallDirectoryEntry` struct (`size_of = 264`) as the byte image
copied into the user buffer: `inode` (u32), `entry_type`, `name_length`,
the name padded to 256 bytes, and two `repr(C)` tail padding bytes
(modelled as 0). -/
def syscallDirEntryBytes (entry_inode : Nat) (ty : DirEntryType) (name : List Nat) : List Nat :=
  u32le entry_inode ++ [ty.toByte, name.length] ++
    (name ++ List.replicate (256 - name.length) 0) ++ [0, 0]

/-- Model of `syscall_read`.  The result is
`some (return value, process, description table, bytes written to buf)`;
`none` is a kernel panic or an unbounded block.  `keyboard` is the stream
of cooked ASCII bytes the fd-0 loop would consume (key-event filtering is
abstracted away); pointer validation of `buf` cannot fail because
`userspace.rs` stubs address checks to `true`. -/
def syscall_read (p : Ext2Parser) (keyboard : List Nat) (proc : Process)
    (descs : List (Option FileDescription)) (fd : Nat) (num_bytes0 : Nat) :
    Option (Int × Process × List (Option FileDescription) × List Nat) :=
  let num_bytes := min num_bytes0 2147483647
  if fd = 0 then
    if keyboard.length < num_bytes then none
    else some ((num_bytes : Int), proc, descs, keyboard.take num_bytes)
  else
    match proc.get_file_descriptor fd with
    | none => some (SyscallError.invalidFileDescriptor.to_i32, proc, descs, [])
    | some descriptor =>
      match get_description descs descriptor with
      | none => none
      | some description =>
        match description.file_type with
        | FileType.file =>
          match p.get_contents_with_offset description.inode num_bytes description.offset with
          | none => none
          | some (written, num_read) =>
            some ((num_read : Int), proc,
              descs.set descriptor
                (some { description with offset := (description.offset + num_read) % U32M }),
              written)
        | FileType.directory =>
          match p.get_next_directory_entry description.inode description.offset with
          | none => none
          | some none => some (0, proc, descs, [])
          | some (some (next_off, entry_inode, entry_name, entry_type)) =>
            if num_bytes < 264 then some (SyscallError.bufferTooSmall.to_i32, proc, descs, [])
            else if 255 ≤ entry_name.length then none
            else
              some ((264 : Int), proc,
                descs.set descriptor (some { description with offset := next_off }),
                syscallDirEntryBytes entry_inode entry_type entry_name)

/-- Model of `syscall_open`.  The result is
`some (return value, process, description table)`; `none` is a panic
inside path resolution.  `path` is the already-validated path byte string
(`UserCStr::as_str` cannot fail: address checks are stubbed to `true`). -/
def syscall_open (p : Ext2Parser) (proc : Process)
    (descs : List (Option FileDescription)) (path : List Nat) (flags : Nat) :
    Option (Int × Process × List (Option FileDescription)) :=
  match p.resolve_path_to_inode path proc.cwd_inode with
  | RResult.panicked => none
  | RResult.notFound => some (SyscallError.invalidPath.to_i32, proc, descs)
  | RResult.ok inode entry_type =>
    match add_description descs
      ⟨inode, 0, flags,
        if entry_type = DirEntryType.directory then FileType.directory else FileType.file⟩ with
    | none => some (SyscallError.openFileLimitReached.to_i32, proc, descs)
    | some (desc_idx, descs2) =>
      match proc.alloc_file_descriptor desc_idx with
      | none => some (SyscallError.openFileLimitReached.to_i32, proc, descs2)
      | some (fd, proc2) => some ((fd : Int), proc2, descs2)

/-- C9: a Read with `fd ≠ 0` that is not an allocated descriptor returns
`-InvalidFileDescriptor = -2` and leaves the process, the description
table and the user buffer untouched. -/
theorem syscall_read_invalid_fd (p : Ext2Parser) (keyboard : List Nat) (proc : Process)
    (descs : List (Option FileDescription)) (fd num_bytes : Nat)
    (hfd : fd ≠ 0) (hnone : proc.get_file_descriptor fd = none) :
    syscall_read p keyboard proc descs fd num_bytes =
      some (SyscallError.invalidFileDescriptor.to_i32, proc, descs, []) ∧
    SyscallError.invalidFileDescriptor.to_i32 = -2 := by
  constructor
  · unfold syscall_read
    rw [if_neg hfd, hnone]
  · rfl

/-- C9 witness: `read(fd=42, buf, 16)` in a process with an empty 16-entry
descriptor table. -/
theorem syscall_read_invalid_fd_witness :
    syscall_read ext2img [] ⟨List.replicate 16 none, 2⟩ (List.replicate 256 none) 42 16 =
      some (SyscallError.invalidFileDescriptor.to_i32,
        (⟨List.replicate 16 none, 2⟩ : Process), List.replicate 256 none, []) ∧
    SyscallError.invalidFileDescriptor.to_i32 = -2 :=
  syscall_read_invalid_fd ext2img [] ⟨List.replicate 16 none, 2⟩ (List.replicate 256 none)
    42 16 (by decide) (by decide)

theorem findFreeSlot_ge {α : Type} (l : List (Option α)) (start j : Nat)
    (h : findFreeSlot l start = some j) : start ≤ j := by
  induction l generalizing start with
  | nil => exact absurd h (by simp [findFreeSlot])
  | cons a rest ih =>
    cases a with
    | none =>
      unfold findFreeSlot at h
      cases h
      exact Nat.le_refl j
    | some v =>
      unfold findFreeSlot at h
      exact Nat.le_of_succ_le (ih (start + 1) h)

theorem take_set_of_le {α : Type} (l : List α) (j n : Nat) (v : α) (h : n ≤ j) :
    (l.set j v).take n = l.take n := by
  induction l generalizing j n with
  | nil => simp
  | cons a as ih =>
    cases j with
    | zero =>
      have : n = 0 := Nat.le_zero.mp h
      subst this
      simp
    | succ j' =>
      cases n with
      | zero => simp
      | succ n' =>
        simp only [List.set_cons_succ, List.take_succ_cons]
        rw [ih j' n' (Nat.le_of_succ_le_succ h)]

/-- C10: a successful Open (non-negative return) yields a file descriptor
of at least 3, and descriptor slots 0..2 and the working directory are
untouched. -/
theorem syscall_open_fd_ge_three (p : Ext2Parser) (proc : Process)
    (descs : List (Option FileDescription)) (path : List Nat) (flags : Nat)
    (ret : Int) (proc2 : Process) (descs2 : List (Option FileDescription))
    (h : syscall_open p proc descs path flags = some (ret, proc2, descs2))
    (hret : 0 ≤ ret) :
    3 ≤ ret ∧ proc2.file_descriptors.take 3 = proc.file_descriptors.take 3 ∧
      proc2.cwd_inode = proc.cwd_inode := by
  unfold syscall_open at h
  cases hres : p.resolve_path_to_inode path proc.cwd_inode with
  | panicked =>
    rw [hres] at h
    exact absurd h (by simp)
  | notFound =>
    rw [hres] at h
    simp only [Option.some.injEq, Prod.mk.injEq] at h
    rw [← h.1] at hret
    exact absurd hret (by decide)
  | ok inode ety =>
    rw [hres] at h
    dsimp only at h
    cases hadd : add_description descs
      ⟨inode, 0, flags,
        if ety = DirEntryType.directory then FileType.directory else FileType.file⟩ with
    | none =>
      rw [hadd] at h
      dsimp only at h
      simp only [Option.some.injEq, Prod.mk.injEq] at h
      rw [← h.1] at hret
      exact absurd hret (by decide)
    | some pr =>
      obtain ⟨desc_idx, descsN⟩ := pr
      rw [hadd] at h
      dsimp only at h
      cases halloc : proc.alloc_file_descriptor desc_idx with
      | none =>
        rw [halloc] at h
        dsimp only at h
        simp only [Option.some.injEq, Prod.mk.injEq] at h
        rw [← h.1] at hret
        exact absurd hret (by decide)
      | some fp =>
        obtain ⟨fd, procN⟩ := fp
        rw [halloc] at h
        dsimp only at h
        simp only [Option.some.injEq, Prod.mk.injEq] at h
        obtain ⟨hret_eq, hproc_eq, _⟩ := h
        unfold Process.alloc_file_descriptor at halloc
        cases hfind : findFreeSlot (proc.file_descriptors.drop 3) 3 with
        | none =>
          rw [hfind] at halloc
          exact absurd halloc (by simp)
        | some j =>
          rw [hfind] at halloc
          simp only [Option.some.injEq, Prod.mk.injEq] at halloc
          obtain ⟨hj, hpr⟩ := halloc
          have h3j : 3 ≤ j := findFreeSlot_ge _ 3 j hfind
          subst hj
          refine ⟨?_, ?_, ?_⟩
          · rw [← hret_eq]
            exact_mod_cast h3j
          · rw [← hproc_eq, ← hpr]
            exact take_set_of_le proc.file_descriptors j 3 (some desc_idx) h3j
          · rw [← hproc_eq, ← hpr]

/-- C10 witness: opening the root path in a process with an empty 16-entry
descriptor table and an empty 256-entry description table yields fd 3. -/
theorem syscall_open_fd_ge_three_witness :
    3 ≤ (3 : Int) ∧
    (⟨(List.replicate 16 (none : Option Nat)).set 3 (some 0), 2⟩ :
        Process).file_descriptors.take 3 =
      (⟨List.replicate 16 (none : Option Nat), 2⟩ : Process).file_descriptors.take 3 ∧
    (⟨(List.replicate 16 (none : Option Nat)).set 3 (some 0), 2⟩ : Process).cwd_inode =
      (⟨List.replicate 16 (none : Option Nat), 2⟩ : Process).cwd_inode :=
  syscall_open_fd_ge_three ext2img ⟨List.replicate 16 none, 2⟩ (List.replicate 256 none)
    [47] 0 3 ⟨(List.replicate 16 none).set 3 (some 0), 2⟩
    ((List.replicate 256 none).set 0 (some ⟨2, 0, 0, FileType.directory⟩))
    (by decide) (by decide)

end ExploreOS
